import Mathlib

/-!
Verification of the inbound-email automation pipeline of the mail.ai server.

Shallow embedding of the JavaScript source.  Conventions used throughout:

* JS strings are Lean `String`s (manipulated as `List Char` where convenient);
  JS string truthiness (`""` is falsy) is modelled explicitly.
* `null`/`undefined`-able values are `Option`s; a field that is either absent
  or a string uses `Option String`, with `some ""` distinct from `none`
  exactly as in JS.
* Decoded message bodies are byte lists (`List Nat`); Node's
  `buf.toString('utf8')` is left at the byte level since every comparison the
  code performs on decoded bodies (concatenation, emptiness) is
  representation-independent.
* Fallible calls (library/API calls that may throw) are `Except` values
  supplied by an environment record; `try/catch` becomes a `match` on the
  `Except`.
-/

namespace MailAi

/-! ## JS string/character helpers -/

/-- JS whitespace for `String.prototype.trim` (ASCII subset actually
occurring in the data handled by the code). -/
def isJsWs (c : Char) : Bool :=
  c = ' ' || c = '\t' || c = '\n' || c = '\r' || c = '\x0b' || c = '\x0c'

/-- `s.trim()` on a char list: drop whitespace at both ends. -/
def jsTrimL (l : List Char) : List Char :=
  ((l.dropWhile isJsWs).reverse.dropWhile isJsWs).reverse

def jsTrim (s : String) : String := ⟨jsTrimL s.data⟩

/-- JS truthiness of a possibly-absent string field: `undefined`, `null`
and `""` are falsy. -/
def truthy : Option String → Bool
  | none => false
  | some s => !(s = "")

/-- `a || b` for an optional string vs. a default (JS `x.f || d`). -/
def orTruthy (o : Option String) (d : String) : String :=
  match o with
  | some s => if s = "" then d else s
  | none => d

/-! ## `decodeBase64Url` (src/src/controllers/webhooks.js lines 100-104)

`decodeBase64Url` substitutes dash to plus and underscore to slash
(globally), then decodes with `Buffer.from(s, 'base64')` and returns
`buf.toString('utf8')`; `!data` returns the empty string.

Node's base64 decoder ignores characters outside the base64 alphabet
(including `=` padding) and decodes the remaining 6-bit groups, dropping a
trailing group of a single character.  The result is modelled as the byte
list of the buffer. -/

/-- Value of a standard base64 alphabet character. -/
def b64Val (c : Char) : Option Nat :=
  if 'A' ≤ c ∧ c ≤ 'Z' then some (c.toNat - 'A'.toNat)
  else if 'a' ≤ c ∧ c ≤ 'z' then some (c.toNat - 'a'.toNat + 26)
  else if '0' ≤ c ∧ c ≤ '9' then some (c.toNat - '0'.toNat + 52)
  else if c = '+' then some 62
  else if c = '/' then some 63
  else none

/-- Group 6-bit values into bytes, 4 values to 3 bytes, with Node's
handling of a short trailing group (2 values give 1 byte, 3 give 2,
a lone trailing value is dropped). -/
def b64Bytes : List Nat → List Nat
  | a :: b :: c :: d :: rest =>
      (a * 4 + b / 16) :: (b % 16 * 16 + c / 4) :: (c % 4 * 64 + d) :: b64Bytes rest
  | [a, b] => [a * 4 + b / 16]
  | [a, b, c] => [a * 4 + b / 16, b % 16 * 16 + c / 4]
  | _ => []

/-- `Buffer.from(s, 'base64')` as a byte list. -/
def bufferFromBase64 (s : String) : List Nat :=
  b64Bytes (s.data.filterMap b64Val)

/-- `decodeBase64Url` from the source: substitute the url-safe alphabet
back to standard base64, then decode.  `!data` short-circuit for the empty
string returns the empty result. -/
def decodeBase64Url (data : String) : List Nat :=
  if data = "" then []
  else bufferFromBase64 ⟨data.data.map (fun c =>
    if c = '-' then '+' else if c = '_' then '/' else c)⟩

/-! ## The Gmail MIME payload tree and `extractBodies`
(src/src/controllers/webhooks.js lines 153-179)

A payload node has an optional `mimeType`, an optional `body.data` and an
optional `parts` array.  `parts` being an empty array is different from
`parts` being absent (`!part.parts` is true only when absent), so the
presence of the field is tracked with a `Bool`.  Mutual inductives are used
so the traversal is plain structural recursion. -/

mutual
inductive MimePart where
  | node (mimeType : Option String) (bodyData : Option String)
      (hasParts : Bool) (children : MimeList) : MimePart
inductive MimeList where
  | nil : MimeList
  | cons : MimePart → MimeList → MimeList
end

/- `walk` of `extractBodies`: accumulate decoded `text/plain` and
`text/html` bytes in depth-first order (a node's own contribution before
its children, as the closure-mutating JS `walk` does). -/
mutual
def walkPart : MimePart → List Nat × List Nat
  | .node mimeType? bodyData? hasParts children =>
    let mimeType := mimeType?.getD ""
    let typed :=
      if truthy bodyData? ∧ (mimeType = "text/plain" ∨ mimeType = "text/html") then
        let decoded := decodeBase64Url (bodyData?.getD "")
        if mimeType = "text/plain" then (decoded, ([] : List Nat)) else ([], decoded)
      else ([], [])
    let untyped :=
      if ¬ hasParts ∧ truthy bodyData? ∧ mimeType = "" then
        decodeBase64Url (bodyData?.getD "")
      else []
    let rest := if hasParts then walkList children else ([], [])
    (typed.1 ++ untyped ++ rest.1, typed.2 ++ rest.2)
def walkList : MimeList → List Nat × List Nat
  | .nil => ([], [])
  | .cons p ps =>
    let a := walkPart p
    let b := walkList ps
    (a.1 ++ b.1, a.2 ++ b.2)
end

/-- Result of `extractBodies`: `text`/`html` are `null` when nothing was
accumulated (`text || null`), otherwise the accumulated bytes. -/
structure Bodies where
  text : Option (List Nat)
  html : Option (List Nat)
deriving DecidableEq, Repr

/-- `extractBodies(payload)` from the source. -/
def extractBodies (payload : MimePart) : Bodies :=
  let acc := walkPart payload
  { text := if acc.1 = [] then none else some acc.1
    html := if acc.2 = [] then none else some acc.2 }

end MailAi

namespace MailAi

/-! ## Body-contribution predicate for the amended C3 statement -/

mutual
/-- `true` when no node of the tree contributes to either accumulated body:
no node with body data typed `text/plain` or `text/html`, and no childless
data-carrying node without a mime type (the source treats the latter as
plain text). -/
def noBodyContribPart : MimePart → Bool
  | .node mimeType? bodyData? hasParts children =>
    let mimeType := mimeType?.getD ""
    (decide ¬ (truthy bodyData? ∧ (mimeType = "text/plain" ∨ mimeType = "text/html"))) &&
    (decide ¬ (¬ hasParts ∧ truthy bodyData? ∧ mimeType = "")) &&
    (!hasParts || noBodyContribList children)
def noBodyContribList : MimeList → Bool
  | .nil => true
  | .cons p ps => noBodyContribPart p && noBodyContribList ps
end

mutual
theorem walkPart_eq_nil_of_noContrib (p : MimePart)
    (h : noBodyContribPart p = true) : walkPart p = ([], []) := by
  match p with
  | .node mimeType? bodyData? hasParts children =>
    simp only [noBodyContribPart, Bool.and_eq_true, decide_eq_true_eq,
      Bool.or_eq_true, Bool.not_eq_true'] at h
    obtain ⟨⟨h1, h2⟩, h3⟩ := h
    simp only [walkPart, if_neg h1, if_neg h2]
    cases hp : hasParts with
    | false => simp
    | true =>
      have := walkList_eq_nil_of_noContrib children (by
        rcases h3 with h3 | h3
        · exact absurd (hp ▸ h3) (by simp)
        · exact h3)
      simp [this]
theorem walkList_eq_nil_of_noContrib (l : MimeList)
    (h : noBodyContribList l = true) : walkList l = ([], []) := by
  match l with
  | .nil => rfl
  | .cons p ps =>
    simp only [noBodyContribList, Bool.and_eq_true] at h
    simp [walkList, walkPart_eq_nil_of_noContrib p h.1,
      walkList_eq_nil_of_noContrib ps h.2]
end

/-- The payload shape of spec property P1: a container whose only child is a
`multipart/alternative` node with one `text/plain` leaf carrying `d1` and one
`text/html` leaf carrying `d2`. -/
def nestedAlternative (d1 d2 : String) : MimePart :=
  .node (some "multipart/mixed") none true
    (.cons (.node (some "multipart/alternative") none true
      (.cons (.node (some "text/plain") (some d1) false .nil)
        (.cons (.node (some "text/html") (some d2) false .nil) .nil)))
      .nil)

/-- C3 counterexample input 1: a childless node carrying body data with no
mime type.  It contains no `text/plain` leaf and no `text/html` leaf, yet
`extractBodies` returns a non-null `text` (`"aGk"` decodes to the bytes of
`"hi"`). -/
def typelessLeaf : MimePart := .node none (some "aGk") false .nil

/-- C3 counterexample input 2: the P1 shape where the `text/plain` leaf's
body data `"===="` is non-empty yet decodes to zero bytes, so the
accumulated text is empty and `extractBodies` yields `null` for `text`. -/
def emptyPlainAlternative : MimePart := nestedAlternative "====" "aGk"

end MailAi

namespace MailAi

/-- C3 counterexample.  The claim is false on the code in both directions:
`typelessLeaf` contains no `text/plain` leaf and no `text/html` leaf, yet
`extractBodies` returns a non-null `text` field (the source treats a
childless data-carrying node without a mime type as plain text); and
`emptyPlainAlternative` is a nested `multipart/alternative` with one
`text/plain` leaf and one `text/html` leaf, yet its `text` field is `null`
because the plain leaf's non-empty body data decodes to zero bytes. -/
theorem extractBodies_claim_counterexample :
    (extractBodies typelessLeaf).text = some [104, 105] ∧
    (extractBodies emptyPlainAlternative).text = none := by
  decide

/-- C3 (amended): for the nested `multipart/alternative` payload with one
`text/plain` leaf and one `text/html` leaf whose body data are non-empty
and decode to non-empty byte strings, `extractBodies` returns both fields
non-null and equal to the base64url-decoded leaf contents; and for every
payload in which no node carries `text/plain` or `text/html` body data and
no childless data-carrying node lacks a mime type, it returns `null` (not
the empty string) for both fields. -/
theorem extractBodies_amended (d1 d2 : String) (h1 : d1 ≠ "") (h2 : d2 ≠ "")
    (h3 : decodeBase64Url d1 ≠ []) (h4 : decodeBase64Url d2 ≠ [])
    (p : MimePart) (hp : noBodyContribPart p = true) :
    extractBodies (nestedAlternative d1 d2) =
      { text := some (decodeBase64Url d1), html := some (decodeBase64Url d2) } ∧
    extractBodies p = { text := none, html := none } := by
  constructor
  · have hw : walkPart (nestedAlternative d1 d2) =
        (decodeBase64Url d1, decodeBase64Url d2) := by
      simp [nestedAlternative, walkPart, walkList, truthy, h1, h2]
    simp [extractBodies, hw, h3, h4]
  · simp [extractBodies, walkPart_eq_nil_of_noContrib p hp]

/-- Closed witness for the amended C3 theorem at concrete payloads. -/
theorem extractBodies_amended_witness :
    extractBodies (nestedAlternative "aGk" "PA==") =
      { text := some (decodeBase64Url "aGk"), html := some (decodeBase64Url "PA==") } ∧
    extractBodies (MimePart.node (some "multipart/mixed") none false .nil) =
      { text := none, html := none } :=
  extractBodies_amended "aGk" "PA==" (by decide) (by decide) (by decide) (by decide)
    _ (by decide)

end MailAi

namespace MailAi

/-! ## JSON values and `JSON.parse`

`safeParseAgentJson` (src/src/controllers/webhooks.js lines 107-150) is
built on `JSON.parse`.  The parser below implements the JSON grammar as
`JSON.parse` accepts it (whitespace, string escapes, number lexemes kept as
their source text, arrays, objects); it is total via a fuel argument sized
by the input.  JS exceptions from `JSON.parse` are the `none` result. -/

inductive Json where
  | null : Json
  | bool : Bool → Json
  | num : String → Json
  | str : String → Json
  | arr : List Json → Json
  | obj : List (String × Json) → Json

/-- JSON whitespace (`JSON.parse` accepts exactly these four). -/
def isJsonWs (c : Char) : Bool :=
  c = ' ' || c = '\t' || c = '\n' || c = '\r'

def skipWs (l : List Char) : List Char := l.dropWhile isJsonWs

def hexVal (c : Char) : Option Nat :=
  if '0' ≤ c ∧ c ≤ '9' then some (c.toNat - '0'.toNat)
  else if 'a' ≤ c ∧ c ≤ 'f' then some (c.toNat - 'a'.toNat + 10)
  else if 'A' ≤ c ∧ c ≤ 'F' then some (c.toNat - 'A'.toNat + 10)
  else none

/-- The simple (single-character) JSON string escapes. -/
def simpleEscape (e : Char) : Option Char :=
  if e = '"' then some '"'
  else if e = '\\' then some '\\'
  else if e = '/' then some '/'
  else if e = 'b' then some '\x08'
  else if e = 'f' then some '\x0c'
  else if e = 'n' then some '\n'
  else if e = 'r' then some '\r'
  else if e = 't' then some '\t'
  else none

mutual
/-- Body of a JSON string literal after the opening quote: processes
escapes, stops at the closing quote, rejects raw control characters. -/
def parseStringBody : List Char → Option (List Char × List Char)
  | [] => none
  | c :: rest =>
    if c = '"' then some ([], rest)
    else if c = '\\' then parseStringEscape rest
    else if c.toNat < 32 then none
    else (parseStringBody rest).map (fun sr => (c :: sr.1, sr.2))
/-- The characters after a backslash inside a JSON string literal:
a `u`-escape of four hex digits or a single-character escape, followed by
the remainder of the string body. -/
def parseStringEscape : List Char → Option (List Char × List Char)
  | [] => none
  | e :: rest =>
    if e = 'u' then
      match rest with
      | h1 :: h2 :: h3 :: h4 :: rest2 => do
        let a ← hexVal h1
        let b ← hexVal h2
        let c ← hexVal h3
        let d ← hexVal h4
        let sr ← parseStringBody rest2
        pure (Char.ofNat (a * 4096 + b * 256 + c * 16 + d) :: sr.1, sr.2)
      | _ => none
    else do
      let ec ← simpleEscape e
      let sr ← parseStringBody rest
      pure (ec :: sr.1, sr.2)
end

def isDigit (c : Char) : Bool := '0' ≤ c ∧ c ≤ '9'

/-- JSON number lexeme: `-? int frac? exp?` with JSON's leading-zero rule.
Returns the lexeme and the rest. -/
def parseNumber (l : List Char) : Option (List Char × List Char) :=
  let (sign, l1) := match l with
    | '-' :: r => (['-'], r)
    | _ => ([], l)
  match l1 with
  | [] => none
  | c :: r =>
    if ¬ isDigit c then none
    else
      let (intPart, l2) :=
        if c = '0' then ([c], r)
        else (c :: r.takeWhile isDigit, r.dropWhile isDigit)
      let fracRes : Option (List Char × List Char) := match l2 with
        | '.' :: r2 =>
          if (r2.takeWhile isDigit).isEmpty then none
          else some ('.' :: r2.takeWhile isDigit, r2.dropWhile isDigit)
        | _ => some ([], l2)
      match fracRes with
      | none => none
      | some (fracPart, l3) =>
        let expRes : Option (List Char × List Char) := match l3 with
          | e :: r3 =>
            if e = 'e' ∨ e = 'E' then
              let (es, r4) := match r3 with
                | '+' :: r5 => (['+'], r5)
                | '-' :: r5 => (['-'], r5)
                | _ => ([], r3)
              if (r4.takeWhile isDigit).isEmpty then none
              else some (e :: es ++ r4.takeWhile isDigit, r4.dropWhile isDigit)
            else some ([], l3)
          | _ => some ([], l3)
        match expRes with
        | none => none
        | some (expPart, l4) =>
          some (sign ++ intPart ++ fracPart ++ expPart, l4)

mutual
def parseValue : Nat → List Char → Option (Json × List Char)
  | 0, _ => none
  | fuel + 1, cs =>
    let l := skipWs cs
    if l.take 1 = ['{'] then
      let r1 := skipWs (l.drop 1)
      if r1.take 1 = ['}'] then some (.obj [], r1.drop 1)
      else parseMembers fuel r1 []
    else if l.take 1 = ['['] then
      let r1 := skipWs (l.drop 1)
      if r1.take 1 = [']'] then some (.arr [], r1.drop 1)
      else parseElements fuel r1 []
    else if l.take 1 = ['"'] then
      match parseStringBody (l.drop 1) with
      | some (s, r) => some (.str ⟨s⟩, r)
      | none => none
    else if l.take 4 = ['t', 'r', 'u', 'e'] then some (.bool true, l.drop 4)
    else if l.take 5 = ['f', 'a', 'l', 's', 'e'] then some (.bool false, l.drop 5)
    else if l.take 4 = ['n', 'u', 'l', 'l'] then some (.null, l.drop 4)
    else
      match parseNumber l with
      | some (lex, r) => some (.num ⟨lex⟩, r)
      | none => none
def parseMembers : Nat → List Char → List (String × Json) →
    Option (Json × List Char)
  | 0, _, _ => none
  | fuel + 1, cs, acc =>
    let l := skipWs cs
    if l.take 1 = ['"'] then
      match parseStringBody (l.drop 1) with
      | some (k, r1) =>
        let r2 := skipWs r1
        if r2.take 1 = [':'] then
          match parseValue fuel (r2.drop 1) with
          | some (v, r3) =>
            let r4 := skipWs r3
            if r4.take 1 = [','] then
              parseMembers fuel (r4.drop 1) (acc ++ [(⟨k⟩, v)])
            else if r4.take 1 = ['}'] then
              some (.obj (acc ++ [(⟨k⟩, v)]), r4.drop 1)
            else none
          | none => none
        else none
      | none => none
    else none
def parseElements : Nat → List Char → List Json → Option (Json × List Char)
  | 0, _, _ => none
  | fuel + 1, cs, acc =>
    match parseValue fuel cs with
    | some (v, r1) =>
      let r2 := skipWs r1
      if r2.take 1 = [','] then parseElements fuel (r2.drop 1) (acc ++ [v])
      else if r2.take 1 = [']'] then some (.arr (acc ++ [v]), r2.drop 1)
      else none
    | none => none
end

/-- `JSON.parse` on a char list: one value, only whitespace around it. -/
def jsonParseL (l : List Char) : Option Json :=
  match parseValue (l.length + 1) l with
  | some (v, rest) => if skipWs rest = [] then some v else none
  | none => none

/-- `JSON.parse` on a string (throw = `none`). -/
def jsonParse (s : String) : Option Json := jsonParseL s.data

end MailAi

namespace MailAi

/-! ## `safeParseAgentJson` (src/src/controllers/webhooks.js lines 107-150)

The recovery ladder of the source: trim; strip code fences when the string
starts with three backticks; isolate the substring between the first brace
and the last brace when both occur; `JSON.parse`; on a string result parse
the inner string again (falling back to an object carrying the raw string
under the key `_raw`); on failure apply the unescape replacements and retry;
otherwise `null` (`none`). -/

/-- The backtick character (code 96). -/
def backtick : Char := Char.ofNat 96

/-- Three backticks, the code-fence marker. -/
def fence3 : List Char := [backtick, backtick, backtick]

/-- JS regex `\s` (ASCII subset). -/
def isJsRegexWs (c : Char) : Bool := isJsWs c

/-- The leading-fence replace: remove three backticks, then optionally a
case-insensitive `json` tag. -/
def stripLeadingFence (l : List Char) : List Char :=
  if l.take 3 = fence3 then
    let r := l.drop 3
    if (r.take 4).map Char.toLower = ['j', 's', 'o', 'n'] then r.drop 4 else r
  else l

/-- The trailing-fence replace: drop from the leftmost three-backtick run
that is followed only by whitespace to the end of the string; the prefix
before it is kept. -/
def stripTrailingFence (l : List Char) : List Char :=
  if l.take 3 = fence3 ∧ (l.drop 3).all isJsRegexWs then []
  else match l with
    | [] => []
    | c :: cs => c :: stripTrailingFence cs

/-- The `^\x22|\x22$` global replace: remove one double quote at the start
and one at the end. -/
def stripEndQuotes (l : List Char) : List Char :=
  let l1 := if l.take 1 = ['"'] then l.drop 1 else l
  if l1 ≠ [] ∧ l1.getLast? = some '"' then l1.dropLast else l1

/-- A global replace of the two-character pattern `a` `b` by `r`,
left-to-right and non-overlapping. -/
def replPair (a b r : Char) : List Char → List Char
  | x :: y :: rest =>
    if x = a ∧ y = b then r :: replPair a b r rest
    else x :: replPair a b r (y :: rest)
  | l => l

/-- `indexOf` of a character (`-1` is `none`). -/
def firstIdxOf (c : Char) (l : List Char) : Option Nat := l.findIdx? (· = c)

/-- `lastIndexOf` of a character. -/
def lastIdxOf (c : Char) (l : List Char) : Option Nat :=
  match l.reverse.findIdx? (· = c) with
  | some i => some (l.length - 1 - i)
  | none => none

/-- `s.slice(i, j)`. -/
def sliceL (i j : Nat) (l : List Char) : List Char := (l.take j).drop i

/-- The four unescape replacements of the source's fallback branch, applied
in source order after `stripEndQuotes`: backslash-quote to quote,
backslash-n to newline, backslash-t to tab, backslash-r to carriage
return. -/
def unescapeLadder (l : List Char) : List Char :=
  replPair '\\' 'r' '\r'
    (replPair '\\' 't' '\t'
      (replPair '\\' 'n' '\n'
        (replPair '\\' '"' '"' (stripEndQuotes l))))

/-- Shared tail of both parse attempts: on a string result, parse the inner
string again, falling back to `{_raw: inner}`. -/
def parseWithStringUnwrap (l : List Char) : Option Json :=
  match jsonParseL l with
  | some (.str inner) =>
    (match jsonParse inner with
     | some v => some v
     | none => some (.obj [("_raw", .str inner)]))
  | some v => some v
  | none => none

/-- The trim-and-unfence prefix of `safeParseAgentJson`: trim, and when the
trimmed string starts with three backticks, strip the leading and trailing
fences and trim again. -/
def fenceCleanup (l : List Char) : List Char :=
  let s0 := jsTrimL l
  if s0.take 3 = fence3 then jsTrimL (stripTrailingFence (stripLeadingFence s0))
  else s0

/-- The brace-isolation step: when both a first `{` and a last `}` exist,
keep only the slice between them (inclusive). -/
def braceSlice (l : List Char) : List Char :=
  match firstIdxOf '{' l, lastIdxOf '}' l with
  | some i, some j => sliceL i (j + 1) l
  | _, _ => l

/-- `safeParseAgentJson(raw)` from the source (`raw == null` gives `null`;
a non-null argument is a string in every call site). -/
def safeParseAgentJson (raw : Option String) : Option Json :=
  match raw with
  | none => none
  | some raw =>
    let s2 := braceSlice (fenceCleanup raw.data)
    match parseWithStringUnwrap s2 with
    | some v => some v
    | none => parseWithStringUnwrap (unescapeLadder s2)

/-- JS truthiness of a parsed JSON value (`null`, `false`, `0`, `""` are
falsy); a number lexeme is falsy when its mantissa digits are all zero. -/
def jsonTruthy : Json → Bool
  | .null => false
  | .bool b => b
  | .str s => !(s = "")
  | .num lex =>
    !(((lex.data.takeWhile (fun c => ¬ (c = 'e' ∨ c = 'E'))).filter isDigit).all
      (· = '0'))
  | .arr _ => true
  | .obj _ => true

/-- The call-site pattern `safeParseAgentJson(x) || {}` (e.g.
src/src/controllers/webhooks.js line 389). -/
def safeParseOrEmpty (raw : String) : Json :=
  match safeParseAgentJson (some raw) with
  | some v => if jsonTruthy v then v else .obj []
  | none => .obj []

end MailAi

namespace MailAi

/-! ## Supporting lemmas for the safeParseAgentJson recovery ladder -/

theorem parseValue_succ_quote (fuel : Nat) (cs rest : List Char)
    (h : skipWs cs = '"' :: rest) :
    parseValue (fuel + 1) cs =
      (match parseStringBody rest with
       | some (s, r) => some (.str ⟨s⟩, r)
       | none => none) := by
  rw [parseValue, h]
  rfl

theorem jsTrimL_eq_self (l : List Char)
    (hh : ∀ c ∈ l.head?, isJsWs c = false)
    (hl : ∀ c ∈ l.getLast?, isJsWs c = false) : jsTrimL l = l := by
  unfold jsTrimL
  have h1 : l.dropWhile isJsWs = l := by
    cases l with
    | nil => rfl
    | cons a t =>
      exact List.dropWhile_cons_of_neg (by simpa using hh a (by simp))
  rw [h1]
  have h2 : l.reverse.dropWhile isJsWs = l.reverse := by
    cases hr : l.reverse with
    | nil => rfl
    | cons a t =>
      have ha : l.getLast? = some a := by rw [← List.head?_reverse, hr]; rfl
      exact List.dropWhile_cons_of_neg (by simpa using hl a (by simp [ha]))
  rw [h2, List.reverse_reverse]

theorem take3_ne_fence3 (c : Char) (xs : List Char) (h : c ≠ backtick) :
    (c :: xs).take 3 ≠ fence3 := by
  simp [fence3, List.take]
  intro hc
  exact absurd hc h

theorem stripTrailingFence_append_fence (l : List Char) (h : backtick ∉ l) :
    stripTrailingFence (l ++ fence3) = l := by
  induction l with
  | nil => rfl
  | cons c t ih =>
    have hc : c ≠ backtick := fun hcc => h (hcc ▸ List.mem_cons_self c t)
    rw [List.cons_append, stripTrailingFence, if_neg,
      ih (fun hm => h (List.mem_cons_of_mem c hm))]
    intro hcond
    exact take3_ne_fence3 c _ hc hcond.1

theorem stripLeadingFence_fence_json (r : List Char) :
    stripLeadingFence (fence3 ++ 'j' :: 's' :: 'o' :: 'n' :: r) = r := by
  unfold stripLeadingFence
  rw [if_pos]
  · have hd : (fence3 ++ 'j' :: 's' :: 'o' :: 'n' :: r).drop 3 =
        'j' :: 's' :: 'o' :: 'n' :: r := List.drop_left fence3 _
    rw [hd]
    have ht : (('j' :: 's' :: 'o' :: 'n' :: r).take 4).map Char.toLower =
        ['j', 's', 'o', 'n'] := rfl
    rw [if_pos ht]
    rfl
  · exact List.take_left fence3 _

theorem firstIdxOf_cons_self (c : Char) (xs : List Char) :
    firstIdxOf c (c :: xs) = some 0 := by
  simp [firstIdxOf, List.findIdx?_cons]

theorem lastIdxOf_of_getLast (c : Char) (l : List Char) (h : l.getLast? = some c) :
    lastIdxOf c l = some (l.length - 1) := by
  unfold lastIdxOf
  cases hr : l.reverse with
  | nil => rw [← List.head?_reverse, hr] at h; simp at h
  | cons a t =>
    have ha : a = c := by rw [← List.head?_reverse, hr] at h; simpa using h
    rw [List.findIdx?_cons, if_pos (by simp [ha])]
    simp

theorem firstIdxOf_append_not_mem (c : Char) (pre l : List Char) (h : c ∉ pre) :
    firstIdxOf c (pre ++ l) = (firstIdxOf c l).map (· + pre.length) := by
  unfold firstIdxOf
  rw [List.findIdx?_append]
  have : List.findIdx? (· = c) pre = none := by
    rw [List.findIdx?_eq_none_iff]
    intro x hx
    simp only [decide_eq_false_iff_not]
    exact fun hxc => h (hxc ▸ hx)
  rw [this, Option.none_or]

theorem parseStringBody_plain (l r : List Char)
    (hq : '"' ∉ l) (hb : '\\' ∉ l) (hc : ∀ c ∈ l, 32 ≤ c.toNat) :
    parseStringBody (l ++ '"' :: r) = some (l, r) := by
  induction l with
  | nil => rfl
  | cons c t ih =>
    have h1 : c ≠ '"' := fun h => hq (h ▸ List.mem_cons_self c t)
    have h2 : c ≠ '\\' := fun h => hb (h ▸ List.mem_cons_self c t)
    have h3 : ¬ c.toNat < 32 := by
      have := hc c (List.mem_cons_self c t)
      omega
    have iht := ih (fun hm => hq (List.mem_cons_of_mem c hm))
      (fun hm => hb (List.mem_cons_of_mem c hm))
      (fun x hx => hc x (List.mem_cons_of_mem c hx))
    rw [List.cons_append]
    simp [parseStringBody, h1, h2, h3, iht]

theorem skipWs_cons_of_not_ws (c : Char) (xs : List Char) (h : isJsonWs c = false) :
    skipWs (c :: xs) = c :: xs := by
  unfold skipWs
  exact List.dropWhile_cons_of_neg (by simp [h])

theorem jsonParseL_quoted (u : List Char)
    (hq : '"' ∉ u) (hb : '\\' ∉ u) (hc : ∀ c ∈ u, 32 ≤ c.toNat) :
    jsonParseL ('"' :: (u ++ ['"'])) = some (.str ⟨u⟩) := by
  have hs : skipWs ('"' :: (u ++ ['"'])) = '"' :: (u ++ ['"']) :=
    skipWs_cons_of_not_ws _ _ (by decide)
  have hp : parseStringBody (u ++ '"' :: []) = some (u, []) :=
    parseStringBody_plain u [] hq hb hc
  unfold jsonParseL
  rw [parseValue_succ_quote _ _ (u ++ ['"']) hs, hp]
  rfl

theorem jsTrimL_sandwich (l : List Char)
    (hh : ∀ c ∈ l.head?, isJsWs c = false)
    (hl : ∀ c ∈ l.getLast?, isJsWs c = false) :
    jsTrimL ('\n' :: (l ++ ['\n'])) = l := by
  unfold jsTrimL
  rw [List.dropWhile_cons_of_pos (by decide)]
  cases l with
  | nil => rfl
  | cons c l' =>
    rw [List.cons_append, List.dropWhile_cons_of_neg (by simpa using hh c (by simp))]
    have hrev : ((c :: l') ++ ['\n']).reverse = '\n' :: (c :: l').reverse := by
      rw [List.reverse_append]
      rfl
    rw [← List.cons_append, hrev, List.dropWhile_cons_of_pos (by decide)]
    cases hr : (c :: l').reverse with
    | nil => simp at hr
    | cons a r =>
      have ha : (c :: l').getLast? = some a := by rw [← List.head?_reverse, hr]; rfl
      rw [List.dropWhile_cons_of_neg (by simpa using hl a (by simp [ha])), ← hr,
        List.reverse_reverse]

theorem safeParse_fenced (tl : List Char) (kvs : List (String × Json))
    (h1 : jsonParseL tl = some (.obj kvs))
    (h2 : tl.head? = some '{') (h3 : tl.getLast? = some '}')
    (h4 : backtick ∉ tl) :
    safeParseAgentJson (some ("```json\n" ++ (⟨tl⟩ : String) ++ "\n```")) =
      some (.obj kvs) := by
  cases tl with
  | nil => simp at h2
  | cons a t =>
  have ha : a = '{' := by simpa using h2
  subst ha
  have hd : ("```json\n" ++ (⟨'{' :: t⟩ : String) ++ "\n```").data =
      fence3 ++ 'j' :: 's' :: 'o' :: 'n' ::
        (('\n' :: ('{' :: t ++ ['\n'])) ++ fence3) := by
    rw [String.data_append, String.data_append]
    simp [fence3, backtick]
  have hnb : backtick ∉ ('\n' :: ('{' :: t ++ ['\n'])) := by
    intro hm
    have hsplit : backtick ∈ ('{' :: t) ∨ backtick = '\n' := by
      rcases List.mem_cons.mp hm with h | h
      · exact Or.inr h
      · rcases List.mem_append.mp h with h | h
        · exact Or.inl h
        · exact Or.inr (List.mem_singleton.mp h)
    rcases hsplit with h | h
    · exact h4 h
    · exact absurd h (by decide)
  have e0 : fenceCleanup ("```json\n" ++ (⟨'{' :: t⟩ : String) ++ "\n```").data =
      '{' :: t := by
    unfold fenceCleanup
    rw [hd]
    have htr : jsTrimL (fence3 ++ 'j' :: 's' :: 'o' :: 'n' ::
        (('\n' :: ('{' :: t ++ ['\n'])) ++ fence3)) =
        fence3 ++ 'j' :: 's' :: 'o' :: 'n' ::
        (('\n' :: ('{' :: t ++ ['\n'])) ++ fence3) := by
      apply jsTrimL_eq_self
      · intro c hc
        have : c = backtick := by
          have hh : (fence3 ++ 'j' :: 's' :: 'o' :: 'n' ::
              (('\n' :: ('{' :: t ++ ['\n'])) ++ fence3)).head? = some backtick := rfl
          rw [hh] at hc
          exact (by simpa using hc : backtick = c).symm
        subst this
        decide
      · intro c hc
        have hg : (fence3 ++ 'j' :: 's' :: 'o' :: 'n' ::
            (('\n' :: ('{' :: t ++ ['\n'])) ++ fence3)).getLast? = some backtick := by
          rw [List.getLast?_append]
          have h5 : ('j' :: 's' :: 'o' :: 'n' ::
              (('\n' :: ('{' :: t ++ ['\n'])) ++ fence3)).getLast? = some backtick := by
            rw [List.getLast?_cons_cons, List.getLast?_cons_cons,
              List.getLast?_cons_cons]
            show (('\n' :: ('{' :: t ++ ['\n'])) ++ fence3).getLast? = _
            rw [List.getLast?_append]
            rfl
          rw [h5]
          rfl
        rw [hg] at hc
        have : c = backtick := (by simpa using hc : backtick = c).symm
        subst this
        decide
    rw [htr]
    have htake : (fence3 ++ 'j' :: 's' :: 'o' :: 'n' ::
        (('\n' :: ('{' :: t ++ ['\n'])) ++ fence3)).take 3 = fence3 := by
      rw [show (3 : Nat) = fence3.length from rfl]
      exact List.take_left fence3 _
    rw [if_pos htake, stripLeadingFence_fence_json,
      stripTrailingFence_append_fence _ hnb]
    exact jsTrimL_sandwich ('{' :: t) (by intro c hc; simp at hc; subst hc; decide)
      (by intro c hc; rw [h3] at hc; simp at hc; subst hc; decide)
  have e1 : braceSlice ('{' :: t) = '{' :: t := by
    unfold braceSlice
    rw [firstIdxOf_cons_self, lastIdxOf_of_getLast '}' _ h3]
    have hlen : ('{' :: t).length - 1 + 1 = ('{' :: t).length := by simp
    show sliceL 0 (('{' :: t).length - 1 + 1) ('{' :: t) = '{' :: t
    rw [hlen]
    unfold sliceL
    rw [List.take_length, List.drop_zero]
  have e2 : parseWithStringUnwrap ('{' :: t) = some (.obj kvs) := by
    unfold parseWithStringUnwrap
    rw [h1]
  simp only [safeParseAgentJson]
  rw [e0, e1, e2]

theorem safeParse_doubleEncoded (u : List Char) (v : Json)
    (h1 : jsonParseL u = some v)
    (h2 : '{' ∉ u) (h3 : '}' ∉ u) (h4 : '"' ∉ u) (h5 : '\\' ∉ u)
    (h6 : ∀ c ∈ u, 32 ≤ c.toNat) :
    safeParseAgentJson (some ⟨'"' :: (u ++ ['"'])⟩) = some v := by
  have hq : jsonParseL ('"' :: (u ++ ['"'])) = some (.str ⟨u⟩) :=
    jsonParseL_quoted u h4 h5 h6
  have e0 : fenceCleanup ('"' :: (u ++ ['"'])) = '"' :: (u ++ ['"']) := by
    unfold fenceCleanup
    have htr : jsTrimL ('"' :: (u ++ ['"'])) = '"' :: (u ++ ['"']) := by
      apply jsTrimL_eq_self
      · intro c hc
        have : c = '"' := (by simpa using hc : '"' = c).symm
        subst this
        decide
      · intro c hc
        rw [show ('"' :: (u ++ ['"'])) = ('"' :: u) ++ ['"'] by simp] at hc
        rw [List.getLast?_concat] at hc
        have : c = '"' := (by simpa using hc : '"' = c).symm
        subst this
        decide
    rw [htr, if_neg (take3_ne_fence3 '"' _ (by decide))]
  have e1 : braceSlice ('"' :: (u ++ ['"'])) = '"' :: (u ++ ['"']) := by
    unfold braceSlice
    have hf : firstIdxOf '{' ('"' :: (u ++ ['"'])) = none := by
      unfold firstIdxOf
      rw [List.findIdx?_eq_none_iff]
      intro x hx
      simp only [decide_eq_false_iff_not]
      intro hxc
      subst hxc
      rcases List.mem_cons.mp hx with h | h
      · exact absurd h (by decide)
      rcases List.mem_append.mp h with h | h
      · exact h2 h
      · exact absurd (List.mem_singleton.mp h) (by decide)
    have hl : lastIdxOf '}' ('"' :: (u ++ ['"'])) = none := by
      unfold lastIdxOf
      have : List.findIdx? (· = '}') ('"' :: (u ++ ['"'])).reverse = none := by
        rw [List.findIdx?_eq_none_iff]
        intro x hx
        simp only [decide_eq_false_iff_not]
        intro hxc
        subst hxc
        rw [List.mem_reverse] at hx
        rcases List.mem_cons.mp hx with h | h
        · exact absurd h (by decide)
        rcases List.mem_append.mp h with h | h
        · exact h3 h
        · exact absurd (List.mem_singleton.mp h) (by decide)
      rw [this]
    rw [hf, hl]
  have e2 : parseWithStringUnwrap ('"' :: (u ++ ['"'])) = some v := by
    unfold parseWithStringUnwrap
    rw [hq]
    show (match jsonParse (⟨u⟩ : String) with
      | some w => some w
      | none => some (.obj [("_raw", .str ⟨u⟩)])) = some v
    have hj : jsonParse (⟨u⟩ : String) = some v := h1
    rw [hj]
  simp only [safeParseAgentJson]
  rw [e0, e1, e2]

theorem safeParse_braceIsolate (pre post tl : List Char) (kvs : List (String × Json))
    (h1 : jsonParseL tl = some (.obj kvs))
    (h2 : tl.head? = some '{') (h3 : tl.getLast? = some '}')
    (hpre : '{' ∉ pre) (hpost : '}' ∉ post)
    (htrim : jsTrimL (pre ++ tl ++ post) = pre ++ tl ++ post)
    (hfence : (pre ++ tl ++ post).take 3 ≠ fence3) :
    safeParseAgentJson (some ⟨pre ++ tl ++ post⟩) = some (.obj kvs) := by
  cases tl with
  | nil => simp at h2
  | cons a t =>
  have ha : a = '{' := by simpa using h2
  subst ha
  have htlen : (1 : Nat) ≤ ('{' :: t).length := by simp
  have e0 : fenceCleanup (pre ++ ('{' :: t) ++ post) = pre ++ ('{' :: t) ++ post := by
    unfold fenceCleanup
    rw [htrim, if_neg hfence]
  have e1 : braceSlice (pre ++ ('{' :: t) ++ post) = '{' :: t := by
    unfold braceSlice
    have hf : firstIdxOf '{' (pre ++ ('{' :: t) ++ post) = some pre.length := by
      rw [List.append_assoc, firstIdxOf_append_not_mem _ _ _ hpre]
      rw [show ('{' :: t) ++ post = '{' :: (t ++ post) by simp]
      rw [firstIdxOf_cons_self]
      simp
    have hrev : (pre ++ ('{' :: t) ++ post).reverse =
        post.reverse ++ (('{' :: t).reverse ++ pre.reverse) := by
      simp
    have hpost' : List.findIdx? (· = '}') post.reverse = none := by
      rw [List.findIdx?_eq_none_iff]
      intro x hx
      simp only [decide_eq_false_iff_not]
      intro hxc
      subst hxc
      exact hpost (List.mem_reverse.mp hx)
    have hrevfi : List.findIdx? (· = '}') (pre ++ ('{' :: t) ++ post).reverse =
        some post.length := by
      rw [hrev, List.findIdx?_append, hpost', Option.none_or]
      cases hrt : ('{' :: t).reverse with
      | nil => simp at hrt
      | cons b r =>
        have hb : b = '}' := by
          have := List.head?_reverse ('{' :: t)
          rw [hrt, h3] at this
          simpa using this
        subst hb
        rw [List.cons_append, List.findIdx?_cons, if_pos (by simp)]
        simp
    have hl : lastIdxOf '}' (pre ++ ('{' :: t) ++ post) =
        some (pre.length + ('{' :: t).length - 1) := by
      unfold lastIdxOf
      rw [hrevfi]
      simp only [List.length_append, List.length_cons]
      congr 1
      omega
    rw [hf, hl]
    show sliceL pre.length (pre.length + ('{' :: t).length - 1 + 1)
      (pre ++ ('{' :: t) ++ post) = '{' :: t
    have hj : pre.length + ('{' :: t).length - 1 + 1 =
        pre.length + ('{' :: t).length := by
      simp only [List.length_cons]
      omega
    rw [hj]
    unfold sliceL
    rw [show pre.length + ('{' :: t).length = (pre ++ ('{' :: t)).length by simp]
    rw [List.take_left, List.drop_left]
  have e2 : parseWithStringUnwrap ('{' :: t) = some (.obj kvs) := by
    unfold parseWithStringUnwrap
    rw [h1]
  simp only [safeParseAgentJson]
  rw [e0, e1, e2]

/-- C6: the JSON-recovery parser of the webhook controller handles
code-fence-wrapped JSON (stripping the fences and parsing the object),
doubly-encoded JSON strings (parsing the inner string again), and non-JSON
text surrounding a JSON object (slicing from the first brace to the last
brace before parsing); and on a string that fails every recovery it yields
`null`, which the call-site default turns into the empty object instead of
an exception. -/
theorem safeParseAgentJson_recovery
    (tl : List Char) (kvs : List (String × Json))
    (h1 : jsonParseL tl = some (.obj kvs)) (h2 : tl.head? = some '{')
    (h3 : tl.getLast? = some '}') (h4 : backtick ∉ tl)
    (u : List Char) (v : Json) (h5 : jsonParseL u = some v)
    (h6 : '{' ∉ u) (h7 : '}' ∉ u) (h8 : '"' ∉ u) (h9 : '\\' ∉ u)
    (h10 : ∀ c ∈ u, 32 ≤ c.toNat)
    (pre post tl2 : List Char) (kvs2 : List (String × Json))
    (h11 : jsonParseL tl2 = some (.obj kvs2)) (h12 : tl2.head? = some '{')
    (h13 : tl2.getLast? = some '}') (h14 : '{' ∉ pre) (h15 : '}' ∉ post)
    (h16 : jsTrimL (pre ++ tl2 ++ post) = pre ++ tl2 ++ post)
    (h17 : (pre ++ tl2 ++ post).take 3 ≠ fence3) :
    safeParseAgentJson (some ("```json\n" ++ (⟨tl⟩ : String) ++ "\n```")) =
      some (.obj kvs) ∧
    safeParseAgentJson (some ⟨'"' :: (u ++ ['"'])⟩) = some v ∧
    safeParseAgentJson (some ⟨pre ++ tl2 ++ post⟩) = some (.obj kvs2) ∧
    safeParseAgentJson (some "The reply was sent to the client.") = none ∧
    safeParseOrEmpty "The reply was sent to the client." = .obj [] :=
  ⟨safeParse_fenced tl kvs h1 h2 h3 h4,
   safeParse_doubleEncoded u v h5 h6 h7 h8 h9 h10,
   safeParse_braceIsolate pre post tl2 kvs2 h11 h12 h13 h14 h15 h16 h17,
   rfl, rfl⟩

/-- Closed witness for the C6 theorem at concrete provider outputs. -/
theorem safeParseAgentJson_recovery_witness :
    safeParseAgentJson
        (some ("```json\n" ++ (⟨"\x7b\"a\":1\x7d".data⟩ : String) ++ "\n```")) =
      some (.obj [("a", .num "1")]) ∧
    safeParseAgentJson (some ⟨'"' :: ("[1,2]".data ++ ['"'])⟩) =
      some (.arr [.num "1", .num "2"]) ∧
    safeParseAgentJson
        (some ⟨"Sure: ".data ++ "\x7b\"ok\":true\x7d".data ++ ", done".data⟩) =
      some (.obj [("ok", .bool true)]) ∧
    safeParseAgentJson (some "The reply was sent to the client.") = none ∧
    safeParseOrEmpty "The reply was sent to the client." = .obj [] :=
  safeParseAgentJson_recovery "\x7b\"a\":1\x7d".data [("a", .num "1")] rfl rfl rfl
    (by decide) "[1,2]".data (.arr [.num "1", .num "2"]) rfl (by decide) (by decide)
    (by decide) (by decide) (by decide) "Sure: ".data ", done".data
    "\x7b\"ok\":true\x7d".data [("ok", .bool true)] rfl rfl rfl (by decide)
    (by decide) rfl (by decide)

end MailAi

namespace MailAi

/-! ## `handleGmailWebhook` (src/src/controllers/webhooks.js lines 8-88)

The handler first sends the `200` acknowledgment, then runs the rest of the
try-block: envelope validation and decoding, user lookup, message listing,
the per-message loop (whose body in this source only logs, lines 53-76),
and the cursor update; the `catch` turns any thrown error into a log line.

Library/external calls (`JSON.parse` of the decoded envelope, the Prisma
user lookup, the Gmail history listing) are supplied by an environment
record, fallible ones as `Except`.  Observable behaviour is a status code,
a body, and the ordered list of performed steps. -/

/-- The decoded Pub/Sub envelope `{emailAddress, historyId}` (the history
id is a JSON number; the source renders it with `String(...)` when it
stores it). -/
structure PubSubEnvelope where
  emailAddress : String
  historyId : Nat
deriving DecidableEq, Repr

/-- `req.body.message` with its optional `data` field. -/
structure PubSubReqMessage where
  data? : Option String
deriving DecidableEq, Repr

/-- The webhook request body: `message` may be absent. -/
structure WebhookReq where
  message? : Option PubSubReqMessage
deriving DecidableEq, Repr

/-- The User row fields the handler touches. -/
structure User where
  id : String
  gmailHistoryId : Option String
deriving DecidableEq, Repr

/-- External collaborators of the handler. -/
structure WebhookEnv (Msg : Type) where
  /-- `Buffer.from(data, 'base64')` + `JSON.parse` on the envelope; a throw
  is `.error`. -/
  parseEnvelope : String → Except String PubSubEnvelope
  /-- `prisma.user.findUnique({where: {email}})`. -/
  findUserByEmail : String → Option User
  /-- `getNewMessages(userId, lastHistoryId)`; may throw. -/
  getNewMessages : String → String → Except String (List Msg)

/-- One observable step of the handler, in execution order. -/
inductive WebhookStep where
  | ack
  | logInvalidFormat
  | logNotification (email : String) (historyId : Nat)
  | logUserNotFound (email : String)
  | listMessages (checkpoint : String)
  | logMessage
  | updateHistory (userId : String) (newCursor : String)
  | logError (e : String)
deriving DecidableEq, Repr

structure WebhookResult where
  status : Nat
  body : String
  steps : List WebhookStep
deriving DecidableEq, Repr

/-- The post-acknowledgment part of the try-block: the steps performed and,
when a call threw, the error that escaped to the `catch`. -/
def handleGmailWebhookCore {Msg : Type} (env : WebhookEnv Msg)
    (req : WebhookReq) : List WebhookStep × Option String :=
  match req.message? with
  | none => ([.logInvalidFormat], none)
  | some m =>
    if truthy m.data? = false then ([.logInvalidFormat], none)
    else
      match env.parseEnvelope (m.data?.getD "") with
      | .error e => ([], some e)
      | .ok data =>
        let step0 := WebhookStep.logNotification data.emailAddress data.historyId
        match env.findUserByEmail data.emailAddress with
        | none => ([step0, .logUserNotFound data.emailAddress], none)
        | some user =>
          let lastHistoryId := orTruthy user.gmailHistoryId (toString data.historyId)
          match env.getNewMessages user.id lastHistoryId with
          | .error e => ([step0], some e)
          | .ok newMessages =>
            ([step0, .listMessages lastHistoryId] ++
              newMessages.map (fun _ => WebhookStep.logMessage) ++
              [.updateHistory user.id (toString data.historyId)], none)

/-- `handleGmailWebhook`: acknowledge with `200` first, then run the core;
a thrown error is caught and logged (`catch` block, lines 84-87), never
re-thrown. -/
def handleGmailWebhook {Msg : Type} (env : WebhookEnv Msg)
    (req : WebhookReq) : WebhookResult :=
  let core := handleGmailWebhookCore env req
  { status := 200
    body := "Webhook received"
    steps := WebhookStep.ack :: (core.1 ++ (match core.2 with
      | some e => [WebhookStep.logError e]
      | none => [])) }

/-- The cursor writes among the performed steps. -/
def cursorUpdates (steps : List WebhookStep) : List (String × String) :=
  steps.filterMap fun s =>
    match s with
    | .updateHistory u c => some (u, c)
    | _ => none

/-- C1: for every webhook POST the acknowledgment is the first step and the
response is `200` no matter what the environment does; an error thrown by
any post-acknowledgment stage (envelope decoding, listing, ...) is caught
and ends as a log entry, never as a propagated exception (the handler's
result is a normal `200` response in that case too). -/
theorem handleGmailWebhook_ack_first_and_catches {Msg : Type}
    (env : WebhookEnv Msg) (req : WebhookReq) :
    (handleGmailWebhook env req).status = 200 ∧
    (handleGmailWebhook env req).steps.head? = some .ack ∧
    (∀ e, (handleGmailWebhookCore env req).2 = some e →
      (handleGmailWebhook env req).steps =
        .ack :: ((handleGmailWebhookCore env req).1 ++ [.logError e])) := by
  refine ⟨rfl, rfl, ?_⟩
  intro e he
  simp [handleGmailWebhook, he]

/-- A user with no stored cursor, for the C1/C2 witnesses. -/
def wUser : User := { id := "u1", gmailHistoryId := none }

/-- A request carrying a non-empty envelope payload. -/
def wReq : WebhookReq := { message? := some { data? := some "payload" } }

/-- An environment whose history listing throws. -/
def wEnvThrow : WebhookEnv Unit :=
  { parseEnvelope := fun _ => .ok { emailAddress := "a@x.com", historyId := 500 }
    findUserByEmail := fun e => if e = "a@x.com" then some wUser else none
    getNewMessages := fun _ _ => .error "listing failed" }

/-- Closed witness for C1: even when the listing throws, the handler
returns `200` with the acknowledgment first and the error logged. -/
theorem handleGmailWebhook_ack_first_and_catches_witness :
    (handleGmailWebhook wEnvThrow wReq).status = 200 ∧
    (handleGmailWebhook wEnvThrow wReq).steps.head? = some .ack ∧
    (handleGmailWebhook wEnvThrow wReq).steps =
      .ack :: ((handleGmailWebhookCore wEnvThrow wReq).1 ++
        [.logError "listing failed"]) := by
  obtain ⟨a, b, c⟩ := handleGmailWebhook_ack_first_and_catches wEnvThrow wReq
  exact ⟨a, b, c "listing failed" (by decide)⟩

/-- C2: when the envelope decodes, the user resolves and the listing
succeeds, the listing checkpoint is the stored cursor when one exists and
otherwise the delivered history id, and after the whole batch — whatever
its length — the handler issues exactly one cursor write, setting the
user's cursor to the delivered history id. -/
theorem handleGmailWebhook_checkpoint {Msg : Type} (env : WebhookEnv Msg)
    (req : WebhookReq) (m : PubSubReqMessage) (d email : String) (hid : Nat)
    (user : User) (msgs : List Msg)
    (h1 : req.message? = some m) (h2 : m.data? = some d) (h3 : d ≠ "")
    (h4 : env.parseEnvelope d = .ok { emailAddress := email, historyId := hid })
    (h5 : env.findUserByEmail email = some user)
    (h6 : env.getNewMessages user.id
      (orTruthy user.gmailHistoryId (toString hid)) = .ok msgs) :
    (handleGmailWebhook env req).steps =
      [.ack, .logNotification email hid,
        .listMessages (orTruthy user.gmailHistoryId (toString hid))] ++
        msgs.map (fun _ => .logMessage) ++ [.updateHistory user.id (toString hid)] ∧
    cursorUpdates (handleGmailWebhook env req).steps =
      [(user.id, toString hid)] ∧
    (user.gmailHistoryId = none →
      orTruthy user.gmailHistoryId (toString hid) = toString hid) ∧
    (∀ s, user.gmailHistoryId = some s → s ≠ "" →
      orTruthy user.gmailHistoryId (toString hid) = s) := by
  have hcore : handleGmailWebhookCore env req =
      ([.logNotification email hid,
        .listMessages (orTruthy user.gmailHistoryId (toString hid))] ++
        msgs.map (fun _ => WebhookStep.logMessage) ++
        [.updateHistory user.id (toString hid)], none) := by
    simp [handleGmailWebhookCore, h1, h2, h3, truthy, h4, h5, h6]
  refine ⟨?_, ?_, ?_, ?_⟩
  · simp [handleGmailWebhook, hcore]
  · simp [handleGmailWebhook, hcore, cursorUpdates]
  · intro h
    simp [orTruthy, h]
  · intro s hs hne
    simp [orTruthy, hs, hne]

/-- An environment delivering two messages for a cursorless user. -/
def wEnvList : WebhookEnv Unit :=
  { parseEnvelope := fun _ => .ok { emailAddress := "a@x.com", historyId := 500 }
    findUserByEmail := fun e => if e = "a@x.com" then some wUser else none
    getNewMessages := fun _ _ => .ok [(), ()] }

/-- Closed witness for C2 at a concrete delivery of two messages. -/
theorem handleGmailWebhook_checkpoint_witness :
    (handleGmailWebhook wEnvList wReq).steps =
      [.ack, .logNotification "a@x.com" 500, .listMessages "500"] ++
        ([(), ()].map (fun _ => .logMessage)) ++ [.updateHistory "u1" "500"] ∧
    cursorUpdates (handleGmailWebhook wEnvList wReq).steps = [("u1", "500")] ∧
    (wUser.gmailHistoryId = none → orTruthy wUser.gmailHistoryId "500" = "500") ∧
    (∀ s, wUser.gmailHistoryId = some s → s ≠ "" →
      orTruthy wUser.gmailHistoryId "500" = s) := by
  have := handleGmailWebhook_checkpoint wEnvList wReq
    { data? := some "payload" } "payload" "a@x.com" 500 wUser [(), ()]
    rfl rfl (by decide) rfl rfl rfl
  simpa using this

end MailAi
namespace MailAi

/-! ## The Notification Materializer (src/unnamed/part_021,
`startNotificationJob`)

Each tick: fetch pending calendar tasks, and for each one due in more than
zero and at most one hour create a `calendarTask` notification unless one
with the same task id and type exists; then the same for regular tasks
(not done, with a task date) and type `task`.  Dates are epoch
milliseconds; `toLocaleString` is an abstract renderer `fmt`. -/

structure CalTask where
  id : String
  title : String
  dueDate : Int
  status : String
  priority : String
  userId : String
deriving DecidableEq, Repr

structure RegTask where
  id : String
  task : String
  taskDate : Option Int
  isDoneTask : Bool
  priority : String
  userId : String
deriving DecidableEq, Repr

structure Notification where
  ntype : String
  title : String
  description : String
  priority : String
  taskId : String
  userId : String
  isRead : Bool
  isActionDone : Bool
deriving DecidableEq, Repr

structure Store where
  calendarTasks : List CalTask
  tasks : List RegTask
  notifications : List Notification
deriving DecidableEq, Repr

/-- `60 * 60 * 1000` milliseconds. -/
def oneHour : Int := 3600000

/-- `timeDifference > 0 && timeDifference <= oneHour`. -/
def dueWithinHour (now due : Int) : Bool := 0 < due - now ∧ due - now ≤ oneHour

/-- The notification row created for a due pending calendar task. -/
def calNotif (fmt : Int → String) (t : CalTask) : Notification :=
  { ntype := "calendarTask"
    title := "Upcoming Clender Meet: " ++ t.title
    description := "Meet \"" ++ t.title ++ "\" is due in less than 1 hour at "
      ++ fmt t.dueDate
    priority := "high"
    taskId := t.id
    userId := t.userId
    isRead := false
    isActionDone := false }

/-- The notification row created for a due regular task. -/
def taskNotif (fmt : Int → String) (t : RegTask) (due : Int) : Notification :=
  { ntype := "task"
    title := "Upcoming Task: " ++ t.task
    description := "Task \"" ++ t.task ++ "\" is due in less than 1 hour at "
      ++ fmt due
    priority := "high"
    taskId := t.id
    userId := t.userId
    isRead := false
    isActionDone := false }

/-- `prisma.notification.findFirst({where: {taskId, type}})` is non-null. -/
def hasNotif (notifs : List Notification) (taskId ty : String) : Bool :=
  notifs.any fun n => n.taskId = taskId ∧ n.ntype = ty

/-- The loop body over one pending calendar task. -/
def stepCal (fmt : Int → String) (now : Int) (notifs : List Notification)
    (t : CalTask) : List Notification :=
  if dueWithinHour now t.dueDate then
    if hasNotif notifs t.id "calendarTask" then notifs
    else notifs ++ [calNotif fmt t]
  else notifs

/-- The loop body over one pending regular task (`if (!task.taskDate)
continue`). -/
def stepTask (fmt : Int → String) (now : Int) (notifs : List Notification)
    (t : RegTask) : List Notification :=
  match t.taskDate with
  | none => notifs
  | some due =>
    if dueWithinHour now due then
      if hasNotif notifs t.id "task" then notifs
      else notifs ++ [taskNotif fmt t due]
    else notifs

/-- The notification list after one tick: the pending-calendar-task loop
followed by the pending-regular-task loop. -/
def jobNotifications (fmt : Int → String) (now : Int) (s : Store) : List Notification :=
  let pendingCal := s.calendarTasks.filter fun t => t.status = "pending"
  let n1 := pendingCal.foldl (stepCal fmt now) s.notifications
  let pendingTasks := s.tasks.filter fun t => !t.isDoneTask ∧ t.taskDate.isSome
  pendingTasks.foldl (stepTask fmt now) n1

/-- One tick of the notification cron job. -/
def runNotificationJob (fmt : Int → String) (now : Int) (s : Store) : Store :=
  { s with notifications := jobNotifications fmt now s }

/-- Number of notification rows for a `(taskId, type)` pair. -/
def countPair (notifs : List Notification) (tid ty : String) : Nat :=
  (notifs.filter fun n => n.taskId = tid ∧ n.ntype = ty).length

theorem stepCal_eq_or (fmt : Int → String) (now : Int) (notifs : List Notification)
    (t : CalTask) :
    stepCal fmt now notifs t = notifs ∨
    (dueWithinHour now t.dueDate = true ∧ hasNotif notifs t.id "calendarTask" = false ∧
      stepCal fmt now notifs t = notifs ++ [calNotif fmt t]) := by
  unfold stepCal
  by_cases hd : dueWithinHour now t.dueDate = true
  · by_cases hh : hasNotif notifs t.id "calendarTask" = true
    · left
      rw [if_pos hd, if_pos hh]
    · right
      refine ⟨hd, by simpa using hh, ?_⟩
      rw [if_pos hd, if_neg hh]
  · left
    rw [if_neg hd]

theorem stepTask_eq_or (fmt : Int → String) (now : Int) (notifs : List Notification)
    (t : RegTask) :
    stepTask fmt now notifs t = notifs ∨
    (∃ due, t.taskDate = some due ∧ dueWithinHour now due = true ∧
      hasNotif notifs t.id "task" = false ∧
      stepTask fmt now notifs t = notifs ++ [taskNotif fmt t due]) := by
  cases hdate : t.taskDate with
  | none => exact Or.inl (by simp [stepTask, hdate])
  | some due =>
    by_cases hd : dueWithinHour now due = true
    · by_cases hh : hasNotif notifs t.id "task" = true
      · left
        simp only [stepTask, hdate]
        rw [if_pos hd, if_pos hh]
      · right
        refine ⟨due, rfl, hd, by simpa using hh, ?_⟩
        simp only [stepTask, hdate]
        rw [if_pos hd, if_neg hh]
    · left
      simp only [stepTask, hdate]
      rw [if_neg hd]

theorem foldCal_append (fmt : Int → String) (now : Int) (ts : List CalTask) :
    ∀ notifs, ∃ a, ts.foldl (stepCal fmt now) notifs = notifs ++ a := by
  induction ts with
  | nil => exact fun notifs => ⟨[], by simp⟩
  | cons t ts ih =>
    intro notifs
    rcases stepCal_eq_or fmt now notifs t with h | ⟨_, _, h⟩
    · obtain ⟨a, ha⟩ := ih (stepCal fmt now notifs t)
      exact ⟨a, by rw [List.foldl_cons, ha, h]⟩
    · obtain ⟨a, ha⟩ := ih (stepCal fmt now notifs t)
      exact ⟨[calNotif fmt t] ++ a, by rw [List.foldl_cons, ha, h, List.append_assoc]⟩

theorem foldTask_append (fmt : Int → String) (now : Int) (ts : List RegTask) :
    ∀ notifs, ∃ a, ts.foldl (stepTask fmt now) notifs = notifs ++ a := by
  induction ts with
  | nil => exact fun notifs => ⟨[], by simp⟩
  | cons t ts ih =>
    intro notifs
    rcases stepTask_eq_or fmt now notifs t with h | ⟨due, _, _, _, h⟩
    · obtain ⟨a, ha⟩ := ih (stepTask fmt now notifs t)
      exact ⟨a, by rw [List.foldl_cons, ha, h]⟩
    · obtain ⟨a, ha⟩ := ih (stepTask fmt now notifs t)
      exact ⟨[taskNotif fmt t due] ++ a,
        by rw [List.foldl_cons, ha, h, List.append_assoc]⟩

theorem hasNotif_append_left (notifs a : List Notification) (tid ty : String)
    (h : hasNotif notifs tid ty = true) : hasNotif (notifs ++ a) tid ty = true := by
  unfold hasNotif at h ⊢
  rw [List.any_append, h, Bool.true_or]

theorem foldCal_establishes (fmt : Int → String) (now : Int) (ts : List CalTask)
    (t : CalTask) :
    ∀ notifs, t ∈ ts → dueWithinHour now t.dueDate = true →
      hasNotif (ts.foldl (stepCal fmt now) notifs) t.id "calendarTask" = true := by
  induction ts with
  | nil => intro _ h; simp at h
  | cons t0 ts ih =>
    intro notifs hmem hdue
    rcases List.mem_cons.mp hmem with heq | htail
    · subst heq
      rw [List.foldl_cons]
      obtain ⟨a, ha⟩ := foldCal_append fmt now ts (stepCal fmt now notifs t)
      rw [ha]
      apply hasNotif_append_left
      rcases stepCal_eq_or fmt now notifs t with h | ⟨_, hh, h⟩
      · rw [h]
        unfold stepCal at h
        rw [if_pos hdue] at h
        by_cases hh : hasNotif notifs t.id "calendarTask" = true
        · exact hh
        · rw [if_neg hh] at h
          exact absurd h (by simp)
      · rw [h]
        unfold hasNotif
        rw [List.any_append]
        have : hasNotif [calNotif fmt t] t.id "calendarTask" = true := by
          simp [hasNotif, calNotif]
        unfold hasNotif at this
        rw [this, Bool.or_true]
    · rw [List.foldl_cons]
      exact ih (stepCal fmt now notifs t0) htail hdue

theorem foldTask_establishes (fmt : Int → String) (now : Int) (ts : List RegTask)
    (t : RegTask) (due : Int) :
    ∀ notifs, t ∈ ts → t.taskDate = some due → dueWithinHour now due = true →
      hasNotif (ts.foldl (stepTask fmt now) notifs) t.id "task" = true := by
  induction ts with
  | nil => intro _ h; simp at h
  | cons t0 ts ih =>
    intro notifs hmem hdate hdue
    rcases List.mem_cons.mp hmem with heq | htail
    · subst heq
      rw [List.foldl_cons]
      obtain ⟨a, ha⟩ := foldTask_append fmt now ts (stepTask fmt now notifs t)
      rw [ha]
      apply hasNotif_append_left
      by_cases hh : hasNotif notifs t.id "task" = true
      · rcases stepTask_eq_or fmt now notifs t with h | ⟨_, _, _, hh', h⟩
        · rw [h]; exact hh
        · rw [hh] at hh'
          exact absurd hh' (by simp)
      · have h : stepTask fmt now notifs t = notifs ++ [taskNotif fmt t due] := by
          simp [stepTask, hdate, hdue, hh]
        rw [h]
        unfold hasNotif
        rw [List.any_append]
        have : hasNotif [taskNotif fmt t due] t.id "task" = true := by
          simp [hasNotif, taskNotif]
        unfold hasNotif at this
        rw [this, Bool.or_true]
    · rw [List.foldl_cons]
      exact ih (stepTask fmt now notifs t0) htail hdate hdue

theorem foldCal_noop (fmt : Int → String) (now : Int) (ts : List CalTask) :
    ∀ notifs, (∀ t ∈ ts, dueWithinHour now t.dueDate = true →
      hasNotif notifs t.id "calendarTask" = true) →
      ts.foldl (stepCal fmt now) notifs = notifs := by
  induction ts with
  | nil => intro _ _; rfl
  | cons t ts ih =>
    intro notifs h
    have hstep : stepCal fmt now notifs t = notifs := by
      unfold stepCal
      by_cases hd : dueWithinHour now t.dueDate = true
      · rw [if_pos hd, if_pos (h t (List.mem_cons_self t ts) hd)]
      · rw [if_neg hd]
    rw [List.foldl_cons, hstep]
    exact ih notifs fun t' ht' => h t' (List.mem_cons_of_mem t ht')

theorem foldTask_noop (fmt : Int → String) (now : Int) (ts : List RegTask) :
    ∀ notifs, (∀ t ∈ ts, ∀ due, t.taskDate = some due →
      dueWithinHour now due = true → hasNotif notifs t.id "task" = true) →
      ts.foldl (stepTask fmt now) notifs = notifs := by
  induction ts with
  | nil => intro _ _; rfl
  | cons t ts ih =>
    intro notifs h
    have hstep : stepTask fmt now notifs t = notifs := by
      cases hdate : t.taskDate with
      | none => simp [stepTask, hdate]
      | some due =>
        simp only [stepTask, hdate]
        by_cases hd : dueWithinHour now due = true
        · rw [if_pos hd, if_pos (h t (List.mem_cons_self t ts) due hdate hd)]
        · rw [if_neg hd]
    rw [List.foldl_cons, hstep]
    exact ih notifs fun t' ht' => h t' (List.mem_cons_of_mem t ht')

theorem countPair_append (a b : List Notification) (tid ty : String) :
    countPair (a ++ b) tid ty = countPair a tid ty + countPair b tid ty := by
  simp [countPair, List.filter_append]

theorem countPair_zero_of_not_has (notifs : List Notification) (tid ty : String)
    (h : hasNotif notifs tid ty = false) : countPair notifs tid ty = 0 := by
  unfold hasNotif at h
  unfold countPair
  rw [List.length_eq_zero, List.filter_eq_nil_iff]
  intro n hn
  have := List.any_eq_false.mp h n hn
  simpa using this

theorem countPair_stepCal_le (fmt : Int → String) (now : Int)
    (notifs : List Notification) (t : CalTask) (tid ty : String) :
    countPair (stepCal fmt now notifs t) tid ty ≤
      max (countPair notifs tid ty) 1 := by
  rcases stepCal_eq_or fmt now notifs t with h | ⟨_, hh, h⟩
  · rw [h]
    exact Nat.le_max_left _ _
  · rw [h, countPair_append]
    by_cases hm : tid = t.id ∧ ty = "calendarTask"
    · obtain ⟨rfl, rfl⟩ := hm
      rw [countPair_zero_of_not_has notifs _ _ hh]
      have : countPair [calNotif fmt t] t.id "calendarTask" = 1 := by
        simp [countPair, calNotif]
      rw [this]
      exact Nat.le_max_right _ _
    · have : countPair [calNotif fmt t] tid ty = 0 := by
        simp only [countPair, List.length_eq_zero, List.filter_eq_nil_iff]
        intro n hn
        have hn' : n = calNotif fmt t := by simpa using hn
        subst hn'
        simp only [calNotif, decide_eq_true_eq]
        intro hc
        exact hm ⟨hc.1.symm, hc.2.symm⟩
      rw [this, Nat.add_zero]
      exact Nat.le_max_left _ _
  
theorem countPair_stepTask_le (fmt : Int → String) (now : Int)
    (notifs : List Notification) (t : RegTask) (tid ty : String) :
    countPair (stepTask fmt now notifs t) tid ty ≤
      max (countPair notifs tid ty) 1 := by
  rcases stepTask_eq_or fmt now notifs t with h | ⟨due, _, _, hh, h⟩
  · rw [h]
    exact Nat.le_max_left _ _
  · rw [h, countPair_append]
    by_cases hm : tid = t.id ∧ ty = "task"
    · obtain ⟨rfl, rfl⟩ := hm
      rw [countPair_zero_of_not_has notifs _ _ hh]
      have : countPair [taskNotif fmt t due] t.id "task" = 1 := by
        simp [countPair, taskNotif]
      rw [this]
      exact Nat.le_max_right _ _
    · have : countPair [taskNotif fmt t due] tid ty = 0 := by
        simp only [countPair, List.length_eq_zero, List.filter_eq_nil_iff]
        intro n hn
        have hn' : n = taskNotif fmt t due := by simpa using hn
        subst hn'
        simp only [taskNotif, decide_eq_true_eq]
        intro hc
        exact hm ⟨hc.1.symm, hc.2.symm⟩
      rw [this, Nat.add_zero]
      exact Nat.le_max_left _ _

theorem countPair_foldCal_le (fmt : Int → String) (now : Int) (ts : List CalTask)
    (tid ty : String) :
    ∀ notifs, countPair (ts.foldl (stepCal fmt now) notifs) tid ty ≤
      max (countPair notifs tid ty) 1 := by
  induction ts with
  | nil => exact fun notifs => Nat.le_max_left _ _
  | cons t ts ih =>
    intro notifs
    rw [List.foldl_cons]
    calc countPair (ts.foldl (stepCal fmt now) (stepCal fmt now notifs t)) tid ty ≤
        max (countPair (stepCal fmt now notifs t) tid ty) 1 := ih _
      _ ≤ max (max (countPair notifs tid ty) 1) 1 :=
          max_le_max (countPair_stepCal_le fmt now notifs t tid ty) (Nat.le_refl 1)
      _ = max (countPair notifs tid ty) 1 := by rw [Nat.max_assoc, Nat.max_self]

theorem countPair_foldTask_le (fmt : Int → String) (now : Int) (ts : List RegTask)
    (tid ty : String) :
    ∀ notifs, countPair (ts.foldl (stepTask fmt now) notifs) tid ty ≤
      max (countPair notifs tid ty) 1 := by
  induction ts with
  | nil => exact fun notifs => Nat.le_max_left _ _
  | cons t ts ih =>
    intro notifs
    rw [List.foldl_cons]
    calc countPair (ts.foldl (stepTask fmt now) (stepTask fmt now notifs t)) tid ty ≤
        max (countPair (stepTask fmt now notifs t) tid ty) 1 := ih _
      _ ≤ max (max (countPair notifs tid ty) 1) 1 :=
          max_le_max (countPair_stepTask_le fmt now notifs t tid ty) (Nat.le_refl 1)
      _ = max (countPair notifs tid ty) 1 := by rw [Nat.max_assoc, Nat.max_self]

/-- C5: the Notification Materializer is idempotent — a second tick against
an unchanged store is the identity, and starting from a store with no
notification for a `(taskId, type)` pair, a tick leaves at most one row for
that pair. -/
theorem notificationJob_idempotent (fmt : Int → String) (now : Int) (s : Store) :
    runNotificationJob fmt now (runNotificationJob fmt now s) =
      runNotificationJob fmt now s ∧
    (∀ tid ty, countPair s.notifications tid ty = 0 →
      countPair (runNotificationJob fmt now s).notifications tid ty ≤ 1) := by
  have hPC : (runNotificationJob fmt now s).calendarTasks = s.calendarTasks := rfl
  have hPT : (runNotificationJob fmt now s).tasks = s.tasks := rfl
  constructor
  · have hcal2 : (s.calendarTasks.filter fun t => t.status = "pending").foldl
        (stepCal fmt now) (runNotificationJob fmt now s).notifications =
        (runNotificationJob fmt now s).notifications := by
      apply foldCal_noop
      intro t ht hdue
      have h1 : hasNotif ((s.calendarTasks.filter fun t => t.status = "pending").foldl
          (stepCal fmt now) s.notifications) t.id "calendarTask" = true :=
        foldCal_establishes fmt now _ t s.notifications ht hdue
      obtain ⟨a, ha⟩ := foldTask_append fmt now
        (s.tasks.filter fun t => !t.isDoneTask ∧ t.taskDate.isSome)
        ((s.calendarTasks.filter fun t => t.status = "pending").foldl
          (stepCal fmt now) s.notifications)
      show hasNotif _ t.id "calendarTask" = true
      rw [show (runNotificationJob fmt now s).notifications =
        ((s.calendarTasks.filter fun t => t.status = "pending").foldl
          (stepCal fmt now) s.notifications) ++ a from ha]
      exact hasNotif_append_left _ _ _ _ h1
    have htask2 : (s.tasks.filter fun t => !t.isDoneTask ∧ t.taskDate.isSome).foldl
        (stepTask fmt now) (runNotificationJob fmt now s).notifications =
        (runNotificationJob fmt now s).notifications := by
      apply foldTask_noop
      intro t ht due hdate hdue
      exact foldTask_establishes fmt now _ t due _ ht hdate hdue
    have hnotif : jobNotifications fmt now (runNotificationJob fmt now s) =
        (runNotificationJob fmt now s).notifications := by
      show (s.tasks.filter fun t => !t.isDoneTask ∧ t.taskDate.isSome).foldl (stepTask fmt now) ((s.calendarTasks.filter fun t => t.status = "pending").foldl (stepCal fmt now) (runNotificationJob fmt now s).notifications) = (runNotificationJob fmt now s).notifications
      rw [hcal2, htask2]
    show { runNotificationJob fmt now s with notifications := jobNotifications fmt now (runNotificationJob fmt now s) } = runNotificationJob fmt now s
    rw [hnotif]
  · intro tid ty h0
    have l1 : countPair ((s.calendarTasks.filter fun t => t.status = "pending").foldl
        (stepCal fmt now) s.notifications) tid ty ≤
        max (countPair s.notifications tid ty) 1 :=
      countPair_foldCal_le fmt now _ tid ty s.notifications
    have l2 : countPair (runNotificationJob fmt now s).notifications tid ty ≤
        max (countPair ((s.calendarTasks.filter fun t => t.status = "pending").foldl
          (stepCal fmt now) s.notifications) tid ty) 1 :=
      countPair_foldTask_le fmt now _ tid ty _
    rw [h0] at l1
    have l1' : countPair ((s.calendarTasks.filter fun t => t.status = "pending").foldl
        (stepCal fmt now) s.notifications) tid ty ≤ 1 := by simpa using l1
    have : max (countPair ((s.calendarTasks.filter fun t => t.status = "pending").foldl
        (stepCal fmt now) s.notifications) tid ty) 1 = 1 := Nat.max_eq_right l1'
    omega

/-- Abstract date renderer standing for `toLocaleString` in witnesses. -/
def constDateFmt : Int → String := fun _ => "1/1/2026, 9:00:00 AM"

/-- A pending calendar task due in 30 minutes (epoch milliseconds), for the
C5/C10 witnesses. -/
def wCalTask : CalTask :=
  { id := "t1", title := "standup", dueDate := 1800000, status := "pending"
    priority := "low", userId := "u1" }

/-- A store holding only `wCalTask`. -/
def wStore : Store :=
  { calendarTasks := [wCalTask], tasks := [], notifications := [] }

/-- Closed witness for C5: on the concrete store the second tick is the
identity and the pair `(t1, calendarTask)` has at most one row. -/
theorem notificationJob_idempotent_witness :
    runNotificationJob constDateFmt 0 (runNotificationJob constDateFmt 0 wStore) =
      runNotificationJob constDateFmt 0 wStore ∧
    countPair (runNotificationJob constDateFmt 0 wStore).notifications
      "t1" "calendarTask" ≤ 1 :=
  ⟨(notificationJob_idempotent constDateFmt 0 wStore).1,
   (notificationJob_idempotent constDateFmt 0 wStore).2 "t1" "calendarTask" (by decide)⟩

theorem mem_foldCal (fmt : Int → String) (now : Int) (ts : List CalTask) :
    ∀ notifs n, n ∈ ts.foldl (stepCal fmt now) notifs →
      n ∈ notifs ∨ ∃ t ∈ ts, dueWithinHour now t.dueDate = true ∧ n = calNotif fmt t := by
  induction ts with
  | nil => intro notifs n h; exact Or.inl h
  | cons t ts ih =>
    intro notifs n h
    rw [List.foldl_cons] at h
    rcases ih (stepCal fmt now notifs t) n h with h1 | ⟨t', ht', hd', he'⟩
    · rcases stepCal_eq_or fmt now notifs t with he | ⟨hd, _, he⟩
      · rw [he] at h1
        exact Or.inl h1
      · rw [he] at h1
        rcases List.mem_append.mp h1 with h2 | h2
        · exact Or.inl h2
        · exact Or.inr ⟨t, List.mem_cons_self t ts, hd, List.mem_singleton.mp h2⟩
    · exact Or.inr ⟨t', List.mem_cons_of_mem t ht', hd', he'⟩

theorem mem_foldTask (fmt : Int → String) (now : Int) (ts : List RegTask) :
    ∀ notifs n, n ∈ ts.foldl (stepTask fmt now) notifs →
      n ∈ notifs ∨ ∃ t ∈ ts, ∃ due, t.taskDate = some due ∧
        dueWithinHour now due = true ∧ n = taskNotif fmt t due := by
  induction ts with
  | nil => intro notifs n h; exact Or.inl h
  | cons t ts ih =>
    intro notifs n h
    rw [List.foldl_cons] at h
    rcases ih (stepTask fmt now notifs t) n h with h1 | ⟨t', ht', rest⟩
    · rcases stepTask_eq_or fmt now notifs t with he | ⟨due, hdate, hd, _, he⟩
      · rw [he] at h1
        exact Or.inl h1
      · rw [he] at h1
        rcases List.mem_append.mp h1 with h2 | h2
        · exact Or.inl h2
        · exact Or.inr ⟨t, List.mem_cons_self t ts, due, hdate, hd,
            List.mem_singleton.mp h2⟩
    · exact Or.inr ⟨t', List.mem_cons_of_mem t ht', rest⟩

/-- C10: every notification row the job tick creates (present afterwards,
absent before) has priority `high` regardless of the source task's own
priority, and stems from a task whose due time is strictly in the future
and at most one hour away. -/
theorem notificationJob_new_row_shape (fmt : Int → String) (now : Int) (s : Store)
    (n : Notification)
    (h1 : n ∈ (runNotificationJob fmt now s).notifications)
    (h2 : n ∉ s.notifications) :
    n.priority = "high" ∧
    ((∃ t ∈ s.calendarTasks, t.status = "pending" ∧ n.taskId = t.id ∧
        n.ntype = "calendarTask" ∧ 0 < t.dueDate - now ∧ t.dueDate - now ≤ oneHour) ∨
     (∃ t ∈ s.tasks, t.isDoneTask = false ∧ n.taskId = t.id ∧ n.ntype = "task" ∧
        ∃ due, t.taskDate = some due ∧ 0 < due - now ∧ due - now ≤ oneHour)) := by
  have h1' : n ∈ (s.tasks.filter fun t => !t.isDoneTask ∧ t.taskDate.isSome).foldl
      (stepTask fmt now)
      ((s.calendarTasks.filter fun t => t.status = "pending").foldl (stepCal fmt now)
        s.notifications) := h1
  rcases mem_foldTask fmt now _ _ n h1' with hm | ⟨t, ht, due, hdate, hdue, he⟩
  · rcases mem_foldCal fmt now _ _ n hm with hm2 | ⟨t, ht, hdue, he⟩
    · exact absurd hm2 h2
    · subst he
      have ht' := List.mem_filter.mp ht
      have hst : t.status = "pending" := by simpa using ht'.2
      have hdue' : 0 < t.dueDate - now ∧ t.dueDate - now ≤ oneHour := by
        simpa [dueWithinHour] using hdue
      exact ⟨rfl, Or.inl ⟨t, ht'.1, hst, rfl, rfl, hdue'.1, hdue'.2⟩⟩
  · subst he
    have ht' := List.mem_filter.mp ht
    have hdone : t.isDoneTask = false := by
      have := ht'.2
      simp only [decide_eq_true_eq, Bool.not_eq_true'] at this
      exact this.1
    have hdue' : 0 < due - now ∧ due - now ≤ oneHour := by
      simpa [dueWithinHour] using hdue
    exact ⟨rfl, Or.inr ⟨t, ht'.1, hdone, rfl, rfl, due, hdate, hdue'.1, hdue'.2⟩⟩

/-- Closed witness for C10 at the concrete store: the created row is the
`high`-priority notification for the pending task due in 30 minutes. -/
theorem notificationJob_new_row_shape_witness :
    (calNotif constDateFmt wCalTask).priority = "high" ∧
    ((∃ t ∈ wStore.calendarTasks, t.status = "pending" ∧
        (calNotif constDateFmt wCalTask).taskId = t.id ∧
        (calNotif constDateFmt wCalTask).ntype = "calendarTask" ∧
        0 < t.dueDate - 0 ∧ t.dueDate - 0 ≤ oneHour) ∨
     (∃ t ∈ wStore.tasks, t.isDoneTask = false ∧
        (calNotif constDateFmt wCalTask).taskId = t.id ∧
        (calNotif constDateFmt wCalTask).ntype = "task" ∧
        ∃ due, t.taskDate = some due ∧ 0 < due - 0 ∧ due - 0 ≤ oneHour)) :=
  notificationJob_new_row_shape constDateFmt 0 wStore (calNotif constDateFmt wCalTask)
    (by decide) (by decide)

end MailAi
namespace MailAi

/-! ## Meeting time resolution (src/unnamed/part_007, `createMeetingEvent`
lines 151-218)

Timestamps are minutes since the civil epoch with the server timezone taken
as UTC (offset 0), where V8's date-only-is-UTC versus date-time-is-local
distinction vanishes.  `new Date(date)` on an unparseable string produces
an Invalid Date that explodes when the event is serialized; that is the
`.error "Invalid Date"` outcome.  `setMinutes` truncates a fractional
minute count, hence the floor on the parsed duration value. -/

def digitVal (c : Char) : Option Int :=
  if isDigit c then some ((c.toNat : Int) - ('0'.toNat : Int)) else none

/-- `YYYY-MM-DD`. -/
def parseISODate (s : String) : Option (Int × Int × Int) :=
  match s.data with
  | [y1, y2, y3, y4, '-', m1, m2, '-', d1, d2] => do
    let a ← digitVal y1
    let b ← digitVal y2
    let c ← digitVal y3
    let d ← digitVal y4
    let e ← digitVal m1
    let f ← digitVal m2
    let g ← digitVal d1
    let h ← digitVal d2
    pure (a * 1000 + b * 100 + c * 10 + d, e * 10 + f, g * 10 + h)
  | _ => none

/-- `HH:MM`. -/
def parseHM (s : String) : Option (Int × Int) :=
  match s.data with
  | [h1, h2, ':', m1, m2] => do
    let a ← digitVal h1
    let b ← digitVal h2
    let c ← digitVal m1
    let d ← digitVal m2
    pure (a * 10 + b, c * 10 + d)
  | _ => none

/-- Days since 1970-01-01 of a civil date (days-from-civil algorithm; all
divisions here act on non-negative operands for the dates concerned). -/
def daysFromCivil (y m d : Int) : Int :=
  let y2 := if m ≤ 2 then y - 1 else y
  let era := (if 0 ≤ y2 then y2 else y2 - 399) / 400
  let yoe := y2 - era * 400
  let mp := (m + 9) % 12
  let doy := (153 * mp + 2) / 5 + d - 1
  let doe := yoe * 365 + yoe / 4 - yoe / 100 + doy
  era * 146097 + doe - 719468

/-- Minutes since the epoch of a civil date-time. -/
def civilMinutes (y mo dd hh mm : Int) : Int :=
  daysFromCivil y mo dd * 1440 + hh * 60 + mm

/-- The duration regex alternation `hour|minute|hr|min`, case-insensitive,
tried in source order at the given position; `true` means an hour unit
(`unit.startsWith('hour') || unit === 'hr'`). -/
def unitAt (l : List Char) : Option Bool :=
  if (l.take 4).map Char.toLower = ['h', 'o', 'u', 'r'] then some true
  else if (l.take 6).map Char.toLower = ['m', 'i', 'n', 'u', 't', 'e'] then some false
  else if (l.take 2).map Char.toLower = ['h', 'r'] then some true
  else if (l.take 3).map Char.toLower = ['m', 'i', 'n'] then some false
  else none

/-- Decimal digit list to its value. -/
def digitsVal (ds : List Char) : Nat :=
  ds.foldl (fun acc c => acc * 10 + (c.toNat - '0'.toNat)) 0

/-- `parseFloat` of the `\d+\.?\d*` token at the given position, as the
exact rational numerator/denominator pair (denominator a power of ten). -/
def numberAt (l : List Char) : Option ((Nat × Nat) × List Char) :=
  let ds := l.takeWhile isDigit
  if ds = [] then none
  else
    match l.dropWhile isDigit with
    | '.' :: r2 =>
      let fs := r2.takeWhile isDigit
      some ((digitsVal ds * 10 ^ fs.length + digitsVal fs, 10 ^ fs.length),
        r2.dropWhile isDigit)
    | r1 => some ((digitsVal ds, 1), r1)

/-- Leftmost match of the duration regex: a decimal number, optional
whitespace, then a unit alternative. -/
def findDurMatch : List Char → Option ((Nat × Nat) × Bool)
  | [] => none
  | c :: rest =>
    match numberAt (c :: rest) with
    | some (v, r1) =>
      (match unitAt (r1.dropWhile isJsWs) with
       | some isHour => some (v, isHour)
       | none => findDurMatch rest)
    | none => findDurMatch rest

/-- The minutes added to the start (`setMinutes`/`setHours` on the end
date): hour units scale by 60; an unmatched or absent duration falls back
to one hour. -/
def durationMinutes (duration : Option String) : Int :=
  match duration with
  | none => 60
  | some d =>
    if d = "" then 60
    else
      match findDurMatch d.data with
      | some ((num, den), isHour) =>
        if isHour then ((num * 60 / den : Nat) : Int) else ((num / den : Nat) : Int)
      | none => 60

structure MeetingData where
  date : Option String
  time : Option String
  duration : Option String
deriving DecidableEq, Repr

/-- The `(start, end)` pair of `createMeetingEvent`: date with time parses
the concatenated local timestamp; date alone defaults to 09:00; no date
throws `Meeting date is required`; end is start plus the parsed duration. -/
def createMeetingEventTimes (md : MeetingData) : Except String (Int × Int) :=
  let startRes : Except String Int :=
    if truthy md.date ∧ truthy md.time then
      match parseISODate (md.date.getD ""), parseHM (md.time.getD "") with
      | some (y, mo, dd), some (hh, mm) => .ok (civilMinutes y mo dd hh mm)
      | _, _ => .error "Invalid Date"
    else if truthy md.date then
      match parseISODate (md.date.getD "") with
      | some (y, mo, dd) => .ok (civilMinutes y mo dd 9 0)
      | none => .error "Invalid Date"
    else .error "Meeting date is required"
  match startRes with
  | .error e => .error e
  | .ok start => .ok (start, start + durationMinutes md.duration)

/-- C4: the meeting time resolver starts at the parsed date-time when both
are given and at 09:00 of the date when only the date is given; the
duration comes from the first decimal number followed by an
`hour`/`hr`/`minute`/`min` unit (case-insensitive, hour units scaled by
60), defaulting to 60 minutes when missing or unrecognized; and the end is
the start plus that duration.  For `{date: 2026-02-10, time: null,
duration: null}` the start is 2026-02-10T09:00 and the end 60 minutes
later. -/
theorem createMeetingEvent_time_resolution (ds ts : String)
    (y mo dd hh mm : Int) (dur : Option String)
    (hpd : parseISODate ds = some (y, mo, dd))
    (hpt : parseHM ts = some (hh, mm)) (hd : ds ≠ "") (ht : ts ≠ "") :
    createMeetingEventTimes { date := some ds, time := some ts, duration := dur } =
      .ok (civilMinutes y mo dd hh mm,
        civilMinutes y mo dd hh mm + durationMinutes dur) ∧
    createMeetingEventTimes { date := some ds, time := none, duration := dur } =
      .ok (civilMinutes y mo dd 9 0, civilMinutes y mo dd 9 0 + durationMinutes dur) ∧
    durationMinutes none = 60 ∧
    durationMinutes (some "2 hours") = 120 ∧
    durationMinutes (some "1.5 Hours") = 90 ∧
    durationMinutes (some "45 minutes") = 45 ∧
    durationMinutes (some "90 min") = 90 ∧
    durationMinutes (some "soon") = 60 ∧
    createMeetingEventTimes
        { date := some "2026-02-10", time := none, duration := none } =
      .ok (civilMinutes 2026 2 10 9 0, civilMinutes 2026 2 10 9 0 + 60) := by
  refine ⟨?_, ?_, rfl, by decide, by decide, by decide, by decide, by decide, rfl⟩
  · simp [createMeetingEventTimes, truthy, hd, ht, hpd, hpt]
  · simp [createMeetingEventTimes, truthy, hd, hpd]

/-- Closed witness for C4 at a concrete meeting input. -/
theorem createMeetingEvent_time_resolution_witness :
    createMeetingEventTimes
        { date := some "2026-02-10", time := some "14:30", duration := some "2 hours" } =
      .ok (civilMinutes 2026 2 10 14 30,
        civilMinutes 2026 2 10 14 30 + durationMinutes (some "2 hours")) ∧
    createMeetingEventTimes
        { date := some "2026-02-10", time := none, duration := some "2 hours" } =
      .ok (civilMinutes 2026 2 10 9 0,
        civilMinutes 2026 2 10 9 0 + durationMinutes (some "2 hours")) ∧
    durationMinutes none = 60 ∧
    durationMinutes (some "2 hours") = 120 ∧
    durationMinutes (some "1.5 Hours") = 90 ∧
    durationMinutes (some "45 minutes") = 45 ∧
    durationMinutes (some "90 min") = 90 ∧
    durationMinutes (some "soon") = 60 ∧
    createMeetingEventTimes
        { date := some "2026-02-10", time := none, duration := none } =
      .ok (civilMinutes 2026 2 10 9 0, civilMinutes 2026 2 10 9 0 + 60) :=
  createMeetingEvent_time_resolution "2026-02-10" "14:30" 2026 2 10 14 30
    (some "2 hours") rfl rfl (by decide) (by decide)

end MailAi
namespace MailAi

/-! ## `addTask` (src/src/controllers/calendar.js lines 5-75)

Validation, the external Google Calendar event creation (wrapped in its own
try/catch), and the local record creation.  `new Date(dueDate)` and the
calendar call are environment oracles; the Prisma insert itself is modelled
as the returned record. -/

structure AuthUser where
  id : String
deriving DecidableEq, Repr

structure AddTaskBody where
  title : Option String
  description : Option String
  dueDate : Option String
  status : Option String
  priority : Option String
  gmailId : Option String
deriving DecidableEq, Repr

structure GoogleEvent where
  id : String
deriving DecidableEq, Repr

structure CalendarTaskRecord where
  title : String
  description : Option String
  dueDate : Int
  status : String
  priority : String
  userId : String
  googleEventId : Option String
  gmailId : Option String
deriving DecidableEq, Repr

structure AddTaskEnv where
  /-- `new Date(dueDate)`: `none` when the result is an Invalid Date. -/
  parseDate : String → Option Int
  /-- `createCalendarEvent(...)`: `.error` when the Google call throws. -/
  createCalendarEvent : Except String GoogleEvent

inductive AddTaskResult where
  | ok (record : CalendarTaskRecord) (message : String)
  | fail (status : Nat) (message : String)
deriving DecidableEq, Repr

def validStatuses : List String := ["pending", "completed", "cancelled"]

def validPriorities : List String := ["low", "medium", "high"]

/-- `addTask` from the source: validations in order; the calendar-side
failure is caught and leaves `googleEventId` null; the record is created
either way. -/
def addTask (env : AddTaskEnv) (user? : Option AuthUser)
    (body : AddTaskBody) : AddTaskResult :=
  match user? with
  | none => .fail 401 "Unauthorized"
  | some user =>
    if ¬ (truthy body.title ∧ truthy body.dueDate) then
      .fail 400 "Required fields: title, dueDate"
    else
      match env.parseDate (body.dueDate.getD "") with
      | none => .fail 400 "Invalid dueDate format"
      | some parsedDueDate =>
        let taskStatus := orTruthy body.status "pending"
        if truthy body.status ∧ ¬ (body.status.getD "") ∈ validStatuses then
          .fail 400 "Invalid status. Must be: pending, completed, or cancelled"
        else
          let taskPriority := orTruthy body.priority "medium"
          if truthy body.priority ∧ ¬ (body.priority.getD "") ∈ validPriorities then
            .fail 400 "Invalid priority. Must be: low, medium, or high"
          else
            let googleEventId : Option String :=
              match env.createCalendarEvent with
              | .ok ev => some ev.id
              | .error _ => none
            .ok { title := body.title.getD ""
                  description := if truthy body.description then body.description
                    else none
                  dueDate := parsedDueDate
                  status := taskStatus
                  priority := taskPriority
                  userId := user.id
                  googleEventId := googleEventId
                  gmailId := body.gmailId }
              (if googleEventId.isSome then
                "Task added successfully to database and Google Calendar"
              else "Task added to database (Google Calendar sync failed)")

/-- C7: when the external calendar event creation fails, the local
CalendarTask record is still created, with `googleEventId` null; the
failure is caught and never aborts the creation. -/
theorem addTask_external_failure_still_creates (env : AddTaskEnv)
    (user : AuthUser) (body : AddTaskBody) (err : String) (dd : Int)
    (h1 : truthy body.title = true) (h2 : truthy body.dueDate = true)
    (h3 : env.parseDate (body.dueDate.getD "") = some dd)
    (h4 : truthy body.status = false) (h5 : truthy body.priority = false)
    (h6 : env.createCalendarEvent = .error err) :
    addTask env (some user) body =
      .ok { title := body.title.getD ""
            description := if truthy body.description then body.description else none
            dueDate := dd
            status := "pending"
            priority := "medium"
            userId := user.id
            googleEventId := none
            gmailId := body.gmailId }
        "Task added to database (Google Calendar sync failed)" := by
  simp [addTask, h1, h2, h3, h4, h5, h6, orTruthy]
  constructor
  · cases hs : body.status with
    | none => rfl
    | some s =>
      rw [hs] at h4
      have hse : s = "" := by simpa [truthy] using h4
      subst hse
      simp
  · cases hp : body.priority with
    | none => rfl
    | some p =>
      rw [hp] at h5
      have hpe : p = "" := by simpa [truthy] using h5
      subst hpe
      simp

/-- Closed witness for C7 at a concrete failing-calendar request. -/
theorem addTask_external_failure_still_creates_witness :
    addTask { parseDate := fun _ => some 29538540
              createCalendarEvent := .error "invalid_grant" }
        (some { id := "u1" })
        { title := some "demo", description := none, dueDate := some "2026-03-01"
          status := none, priority := none, gmailId := none } =
      .ok { title := "demo", description := none, dueDate := 29538540
            status := "pending", priority := "medium", userId := "u1"
            googleEventId := none, gmailId := none }
        "Task added to database (Google Calendar sync failed)" := by
  have := addTask_external_failure_still_creates
    { parseDate := fun _ => some 29538540, createCalendarEvent := .error "invalid_grant" }
    { id := "u1" }
    { title := some "demo", description := none, dueDate := some "2026-03-01"
      status := none, priority := none, gmailId := none }
    "invalid_grant" 29538540 (by decide) (by decide) rfl (by decide) (by decide) rfl
  simpa using this

/-! ## `sendAutoReply` threading (src/src/services/gmailPubSub.js
lines 212-283)

The reply message is assembled as header lines joined by CRLF and sent with
the original thread id in the request body.  The observable output modelled
is the ordered line list and the thread id passed to the send call;
base64url encoding of the joined lines is injective and omitted. -/

structure OriginalEmail where
  threadId : String
  headers : List (String × String)
deriving DecidableEq, Repr

/-- `headers.find(h => h.name === name)?.value`. -/
def findHeader (headers : List (String × String)) (name : String) : Option String :=
  (headers.find? fun h => h.1 = name).map (·.2)

/-- The assembled reply: email lines and the `threadId` of the send
request. -/
def buildAutoReply (orig : OriginalEmail) (recipient subject htmlBody : String) :
    List String × String :=
  let messageId := findHeader orig.headers "Message-ID"
  let references := findHeader orig.headers "References"
  let threadingLines :=
    if truthy messageId then
      ["In-Reply-To: " ++ messageId.getD ""] ++
        (if truthy references then
          ["References: " ++ references.getD "" ++ " " ++ messageId.getD ""]
        else ["References: " ++ messageId.getD ""])
    else []
  (["To: " ++ recipient, "Subject: " ++ subject] ++ threadingLines ++
    ["MIME-Version: 1.0", "Content-Type: text/html; charset=UTF-8", "", htmlBody],
    orig.threadId)

/-- C8: when the original carries a `Message-ID`, the reply sets
`In-Reply-To` to it and `References` to the original `References` with the
`Message-ID` appended (or the `Message-ID` alone when no `References`
header existed), and the original `threadId` is passed with the send; when
the original has no `Message-ID`, no threading header is added. -/
theorem sendAutoReply_threading (orig : OriginalEmail)
    (recipient subject htmlBody mid refs : String) :
    (findHeader orig.headers "Message-ID" = some mid → mid ≠ "" →
      findHeader orig.headers "References" = some refs → refs ≠ "" →
      buildAutoReply orig recipient subject htmlBody =
        (["To: " ++ recipient, "Subject: " ++ subject, "In-Reply-To: " ++ mid,
          "References: " ++ refs ++ " " ++ mid, "MIME-Version: 1.0",
          "Content-Type: text/html; charset=UTF-8", "", htmlBody],
          orig.threadId)) ∧
    (findHeader orig.headers "Message-ID" = some mid → mid ≠ "" →
      findHeader orig.headers "References" = none →
      buildAutoReply orig recipient subject htmlBody =
        (["To: " ++ recipient, "Subject: " ++ subject, "In-Reply-To: " ++ mid,
          "References: " ++ mid, "MIME-Version: 1.0",
          "Content-Type: text/html; charset=UTF-8", "", htmlBody],
          orig.threadId)) ∧
    (findHeader orig.headers "Message-ID" = none →
      buildAutoReply orig recipient subject htmlBody =
        (["To: " ++ recipient, "Subject: " ++ subject, "MIME-Version: 1.0",
          "Content-Type: text/html; charset=UTF-8", "", htmlBody],
          orig.threadId)) := by
  refine ⟨?_, ?_, ?_⟩
  · intro h1 h2 h3 h4
    simp [buildAutoReply, h1, h2, h3, h4, truthy]
  · intro h1 h2 h3
    simp [buildAutoReply, h1, h2, h3, truthy]
  · intro h1
    simp [buildAutoReply, h1, truthy]

/-- An original message with both threading headers. -/
def wOrigBoth : OriginalEmail :=
  { threadId := "th1"
    headers := [("Message-ID", "<m3@x>"), ("References", "<m1@x> <m2@x>")] }

/-- An original message with only a `Message-ID`. -/
def wOrigMidOnly : OriginalEmail :=
  { threadId := "th2", headers := [("Message-ID", "<m3@x>")] }

/-- An original message with no `Message-ID`. -/
def wOrigBare : OriginalEmail :=
  { threadId := "th3", headers := [("Subject", "hi")] }

/-- Closed witness for C8 at the three concrete header configurations. -/
theorem sendAutoReply_threading_witness :
    buildAutoReply wOrigBoth "a@x" "Re: hi" "<p>ok</p>" =
      (["To: a@x", "Subject: Re: hi", "In-Reply-To: <m3@x>",
        "References: <m1@x> <m2@x> <m3@x>", "MIME-Version: 1.0",
        "Content-Type: text/html; charset=UTF-8", "", "<p>ok</p>"], "th1") ∧
    buildAutoReply wOrigMidOnly "a@x" "Re: hi" "<p>ok</p>" =
      (["To: a@x", "Subject: Re: hi", "In-Reply-To: <m3@x>",
        "References: <m3@x>", "MIME-Version: 1.0",
        "Content-Type: text/html; charset=UTF-8", "", "<p>ok</p>"], "th2") ∧
    buildAutoReply wOrigBare "a@x" "Re: hi" "<p>ok</p>" =
      (["To: a@x", "Subject: Re: hi", "MIME-Version: 1.0",
        "Content-Type: text/html; charset=UTF-8", "", "<p>ok</p>"], "th3") :=
  ⟨(sendAutoReply_threading wOrigBoth "a@x" "Re: hi" "<p>ok</p>" "<m3@x>"
      "<m1@x> <m2@x>").1 rfl (by decide) rfl (by decide),
   (sendAutoReply_threading wOrigMidOnly "a@x" "Re: hi" "<p>ok</p>" "<m3@x>"
      "").2.1 rfl (by decide) rfl,
   (sendAutoReply_threading wOrigBare "a@x" "Re: hi" "<p>ok</p>" "" "").2.2 rfl⟩

end MailAi
namespace MailAi

/-! ## The Automation Dispatcher (spec section 4.3)

The per-message four-action automation (summarize, extract tasks, extract
meetings, auto-reply) is not present in this repository snapshot: the
webhook handler's loop holds only a placeholder comment
(src/src/controllers/webhooks.js lines 70-74), while its declarations (the
`bots` table migration with the four enabled-action flags) and callees
(`sendAutoReply`) exist.  The dispatcher below is therefore modelled from
the spec's description of bot matching, per-action isolation and the
checkpoint advance. -/

/-- Modelled from the spec: the AutomationBot row (the dispatcher's rule
record; migration field names), whose dispatcher-side reader is missing
from the snapshot. -/
structure SpecBot where
  id : String
  emails : List String
  isactive : Bool
  isautoSummarize : Bool
  isautoExtractTaskes : Bool
  isautoExtractMettengs : Bool
  isAutoReply : Bool
deriving DecidableEq, Repr

/-- Modelled from the spec: an inbound message as the missing dispatcher
consumes it. -/
structure SpecMsg where
  id : String
  sender : String
deriving DecidableEq, Repr

/-- Modelled from the spec: an observable side effect of a dispatcher
action or of the surrounding handler. -/
inductive SpecEffect where
  | summaryRow (msgId : String)
  | taskRows (msgId : String)
  | meetingRows (msgId : String)
  | sentReply (msgId : String)
  | cursorWrite (cursor : String)
  | logLine (s : String)
deriving DecidableEq, Repr

/-- Modelled from the spec: the four action implementations the missing
dispatcher would call (LLM + persistence + send), each fallible. -/
structure DispatchEnv where
  summarize : SpecMsg → Except String (List SpecEffect)
  extractTasks : SpecMsg → Except String (List SpecEffect)
  extractMeetings : SpecMsg → Except String (List SpecEffect)
  autoReply : SpecMsg → Except String (List SpecEffect)

/-- Modelled from the spec: each action is wrapped so a thrown error is
caught and logged instead of propagating. -/
def runAction (r : Except String (List SpecEffect)) : List SpecEffect :=
  match r with
  | .ok effs => effs
  | .error e => [.logLine e]

/-- Modelled from the spec: the missing `processMessage` — resolve the
first active bot whose sender set contains the message's sender; no match
is a log line only; otherwise attempt each enabled action independently,
isolating failures per action. -/
def specProcessMessage (env : DispatchEnv) (bots : List SpecBot)
    (msg : SpecMsg) : List SpecEffect :=
  match bots.find? (fun b => b.isactive && msg.sender ∈ b.emails) with
  | none => [.logLine "no matching bot"]
  | some bot =>
    (if bot.isautoSummarize then runAction (env.summarize msg) else []) ++
    (if bot.isautoExtractTaskes then runAction (env.extractTasks msg) else []) ++
    (if bot.isautoExtractMettengs then runAction (env.extractMeetings msg) else []) ++
    (if bot.isAutoReply then runAction (env.autoReply msg) else [])

/-- Modelled from the spec: the missing per-batch wrapper — dispatch each
message in order, then advance the checkpoint once. -/
def specProcessBatch (env : DispatchEnv) (bots : List SpecBot)
    (msgs : List SpecMsg) (historyId : String) : List SpecEffect :=
  (msgs.map (specProcessMessage env bots)).flatten ++ [.cursorWrite historyId]

/-- C9: with a matching bot with all four actions enabled, when the
task-extraction action throws, the summarize, meeting-extraction and
auto-reply actions still run and their side effects are observable, the
error becomes a log line, and the batch wrapper still completes and
advances the checkpoint exactly once at the end. -/
theorem specDispatcher_action_isolation (env : DispatchEnv) (bots : List SpecBot)
    (msg : SpecMsg) (bot : SpecBot) (e : String)
    (sEffs mEffs rEffs : List SpecEffect)
    (hfind : bots.find? (fun b => b.isactive && msg.sender ∈ b.emails) = some bot)
    (hs : bot.isautoSummarize = true) (hx : bot.isautoExtractTaskes = true)
    (hme : bot.isautoExtractMettengs = true) (hr : bot.isAutoReply = true)
    (hex : env.extractTasks msg = .error e)
    (hsum : env.summarize msg = .ok sEffs)
    (hmeet : env.extractMeetings msg = .ok mEffs)
    (hrep : env.autoReply msg = .ok rEffs) :
    specProcessMessage env bots msg =
      sEffs ++ [.logLine e] ++ mEffs ++ rEffs ∧
    (∀ msgs hid, (specProcessBatch env bots msgs hid).getLast? =
      some (.cursorWrite hid)) := by
  constructor
  · simp [specProcessMessage, hfind, hs, hx, hme, hr, runAction,
      hex, hsum, hmeet, hrep]
  · intro msgs hid
    unfold specProcessBatch
    rw [List.getLast?_append]
    rfl

/-- A concrete all-enabled bot for the C9 witness. -/
def wBot : SpecBot :=
  { id := "b1", emails := ["boss@corp.com"], isactive := true
    isautoSummarize := true, isautoExtractTaskes := true
    isautoExtractMettengs := true, isAutoReply := true }

/-- A concrete message matching `wBot`. -/
def wMsg : SpecMsg := { id := "m1", sender := "boss@corp.com" }

/-- A concrete environment whose task extraction throws. -/
def wDispatchEnv : DispatchEnv :=
  { summarize := fun m => .ok [.summaryRow m.id]
    extractTasks := fun _ => .error "LLM timeout"
    extractMeetings := fun m => .ok [.meetingRows m.id]
    autoReply := fun m => .ok [.sentReply m.id] }

/-- Closed witness for C9: the failed extraction is a log line among the
surviving sibling effects, and the batch still ends in the cursor write. -/
theorem specDispatcher_action_isolation_witness :
    specProcessMessage wDispatchEnv [wBot] wMsg =
      [.summaryRow "m1"] ++ [.logLine "LLM timeout"] ++
        [.meetingRows "m1"] ++ [.sentReply "m1"] ∧
    (specProcessBatch wDispatchEnv [wBot] [wMsg] "500").getLast? =
      some (.cursorWrite "500") := by
  have := specDispatcher_action_isolation wDispatchEnv [wBot] wMsg wBot
    "LLM timeout" [.summaryRow "m1"] [.meetingRows "m1"] [.sentReply "m1"]
    (by decide) rfl rfl rfl rfl rfl rfl rfl rfl
  exact ⟨this.1, this.2 [wMsg] "500"⟩

end MailAi
